import Mathlib

/-!
Verification of the spicier circuit-simulator core against its specification.

The scalar type of the embedding is `ℚ`, modelling the exact real-number
reading of the `f64` arithmetic in the source.  External collaborators
(the nalgebra/faer LU factorisations, the hardware square root, the SIMD
dot-product kernels) are passed as function parameters, so every theorem
quantifies over their behaviour.
-/

namespace Spicier

/-- Threshold `1e-30` used throughout the solver sources for near-zero tests. -/
def tiny : ℚ := 1 / 10 ^ 30

/-- TR-BDF2 gamma constant.  The source defines
`TRBDF2_GAMMA: f64 = 2.0 - std::f64::consts::SQRT_2`; the value below is the
exact rational value of that `f64` constant
(`SQRT_2 = 6369051672525773 / 2^52`). -/
def TRBDF2_GAMMA : ℚ := 2 - 6369051672525773 / 4503599627370496

/-- Integration method for transient analysis (transient/types.rs). -/
inductive IntegrationMethod
  | backwardEuler
  | trapezoidal
  | trBdf2
deriving DecidableEq, Repr

/-! ### MNA system

`MnaSystem` lives in the `spicier-core` crate, which is not part of the
sources; only its callers are.  It is therefore modelled from the spec. -/

/-- Modelled from the spec: the `spicier-core` crate's `MnaSystem` is not in
the sources.  Spec section 3 and 4.1: a triplet list `(row, col, value)` with
duplicates summed semantically, plus a right-hand side of length `n`. -/
structure MnaSystem where
  num_nodes : ℕ
  num_vsources : ℕ
  triplets : List (ℕ × ℕ × ℚ)
  rhs : List ℚ
deriving Repr

/-- Add `v` to position `idx` of a list (no-op when out of range, as the
stamping layer only addresses rows that exist). -/
def listAdd (xs : List ℚ) (idx : ℕ) (v : ℚ) : List ℚ :=
  xs.set idx (xs.getD idx 0 + v)

/-- Modelled from the spec (4.1): `stamp_conductance(p, n, g)` adds `g` to
`[p,p]` and `[n,n]`, subtracts `g` from `[p,n]` and `[n,p]`, and skips
terminals equal to ground (`none`). -/
def MnaSystem.stamp_conductance (m : MnaSystem) (p n : Option ℕ) (g : ℚ) :
    MnaSystem :=
  let t₁ := match p with
    | some i => m.triplets ++ [(i, i, g)]
    | none => m.triplets
  let t₂ := match n with
    | some j => t₁ ++ [(j, j, g)]
    | none => t₁
  let t₃ := match p, n with
    | some i, some j => t₂ ++ [(i, j, -g), (j, i, -g)]
    | _, _ => t₂
  { m with triplets := t₃ }

/-- Modelled from the spec (4.1): `stamp_current_source(p, n, i)` adds `i` to
`rhs[p]` and subtracts `i` from `rhs[n]` (current flows from `n` to `p`),
skipping ground terminals. -/
def MnaSystem.stamp_current_source (m : MnaSystem) (p n : Option ℕ) (i : ℚ) :
    MnaSystem :=
  let r₁ := match p with
    | some ip => listAdd m.rhs ip i
    | none => m.rhs
  let r₂ := match n with
    | some jn => listAdd r₁ jn (-i)
    | none => r₁
  { m with rhs := r₂ }

/-- Semantic value of the matrix at `(r, c)`: the sum of all triplets
addressed there (spec: duplicates are summed). -/
def MnaSystem.matEntry (m : MnaSystem) (r c : ℕ) : ℚ :=
  (m.triplets.map (fun t => if t.1 = r ∧ t.2.1 = c then t.2.2 else 0)).sum

/-- Semantic value of the right-hand side at row `i`. -/
def MnaSystem.rhsEntry (m : MnaSystem) (i : ℕ) : ℚ :=
  m.rhs.getD i 0

/-! ### Companion models (transient/companion.rs) -/

/-- State of a capacitor for companion model (transient/companion.rs). -/
structure CapacitorState where
  capacitance : ℚ
  v_prev : ℚ
  i_prev : ℚ
  v_prev_prev : ℚ
  node_pos : Option ℕ
  node_neg : Option ℕ
deriving Repr

/-- Voltage across the element from a solution vector: ground terminals read
as `0` (companion.rs, `voltage_from_solution`). -/
def voltageFromSolution (node_pos node_neg : Option ℕ) (solution : List ℚ) : ℚ :=
  let vp := match node_pos with | some i => solution.getD i 0 | none => 0
  let vn := match node_neg with | some i => solution.getD i 0 | none => 0
  vp - vn

/-- Capacitor Backward Euler companion stamp:
`G_eq = C/h` in parallel with `I_eq = G_eq * v_prev`, the current source
flowing from `neg` to `pos` (companion.rs, `stamp_be`). -/
def CapacitorState.stamp_be (c : CapacitorState) (mna : MnaSystem) (h : ℚ) :
    MnaSystem :=
  let geq := c.capacitance / h
  let ieq := geq * c.v_prev
  (mna.stamp_conductance c.node_pos c.node_neg geq).stamp_current_source
    c.node_neg c.node_pos ieq

/-- Capacitor Trapezoidal companion stamp:
`G_eq = 2C/h` in parallel with `I_eq = G_eq * v_prev + i_prev`
(companion.rs, `stamp_trap`). -/
def CapacitorState.stamp_trap (c : CapacitorState) (mna : MnaSystem) (h : ℚ) :
    MnaSystem :=
  let geq := 2 * c.capacitance / h
  let ieq := geq * c.v_prev + c.i_prev
  (mna.stamp_conductance c.node_pos c.node_neg geq).stamp_current_source
    c.node_neg c.node_pos ieq

/-- Capacitor post-step state update (companion.rs, `CapacitorState::update`). -/
def CapacitorState.update (c : CapacitorState) (v_new h : ℚ)
    (method : IntegrationMethod) : CapacitorState :=
  let i' := match method with
    | .backwardEuler => c.capacitance / h * (v_new - c.v_prev)
    | .trapezoidal => 2 * c.capacitance / h * (v_new - c.v_prev) - c.i_prev
    | .trBdf2 =>
      let gamma := TRBDF2_GAMMA
      let alpha := (1 - gamma) / (gamma * (2 - gamma))
      c.capacitance / h *
        ((1 + alpha) * v_new - (1 + 2 * alpha) * c.v_prev
          + alpha * c.v_prev_prev)
  { c with i_prev := i', v_prev_prev := c.v_prev, v_prev := v_new }

/-- Capacitor update after the TR-BDF2 intermediate (trapezoidal) stage
(companion.rs, `update_trbdf2_intermediate`). -/
def CapacitorState.update_trbdf2_intermediate (c : CapacitorState)
    (v_gamma h : ℚ) : CapacitorState :=
  let gamma := TRBDF2_GAMMA
  let h_gamma := gamma * h
  let vpp := c.v_prev
  let i' := 2 * c.capacitance / h_gamma * (v_gamma - vpp) - c.i_prev
  { c with v_prev_prev := vpp, i_prev := i', v_prev := v_gamma }

/-- Capacitor LTE estimate by the Milne device:
`|i_trap - i_be| / 3` (companion.rs, `estimate_lte`). -/
def CapacitorState.estimate_lte (c : CapacitorState) (v_new h : ℚ) : ℚ :=
  let i_trap := 2 * c.capacitance / h * (v_new - c.v_prev) - c.i_prev
  let i_be := c.capacitance / h * (v_new - c.v_prev)
  |i_trap - i_be| / 3

/-- Capacitor terminal voltage read from a solution vector. -/
def CapacitorState.voltage_from_solution (c : CapacitorState)
    (solution : List ℚ) : ℚ :=
  voltageFromSolution c.node_pos c.node_neg solution

/-- State of an inductor for companion model (transient/companion.rs). -/
structure InductorState where
  inductance : ℚ
  i_prev : ℚ
  v_prev : ℚ
  i_prev_prev : ℚ
  node_pos : Option ℕ
  node_neg : Option ℕ
deriving Repr

/-- Inductor Backward Euler companion stamp: `G_eq = h/L` in parallel with
`I_eq = i_prev` flowing from `pos` to `neg` (companion.rs, `stamp_be`). -/
def InductorState.stamp_be (l : InductorState) (mna : MnaSystem) (h : ℚ) :
    MnaSystem :=
  let geq := h / l.inductance
  let ieq := l.i_prev
  (mna.stamp_conductance l.node_pos l.node_neg geq).stamp_current_source
    l.node_pos l.node_neg ieq

/-- Inductor Trapezoidal companion stamp: `G_eq = h/(2L)` in parallel with
`I_eq = i_prev + G_eq * v_prev` (companion.rs, `stamp_trap`). -/
def InductorState.stamp_trap (l : InductorState) (mna : MnaSystem) (h : ℚ) :
    MnaSystem :=
  let geq := h / (2 * l.inductance)
  let ieq := l.i_prev + geq * l.v_prev
  (mna.stamp_conductance l.node_pos l.node_neg geq).stamp_current_source
    l.node_pos l.node_neg ieq

/-- Inductor post-step state update (companion.rs, `InductorState::update`).
Note the TR-BDF2 arm of the source reads `self.v_prev` in both history
positions, and the final two assignments copy the freshly updated `i_prev`
into `i_prev_prev`. -/
def InductorState.update (l : InductorState) (v_new h : ℚ)
    (method : IntegrationMethod) : InductorState :=
  let i' := match method with
    | .backwardEuler => l.i_prev + h / l.inductance * v_new
    | .trapezoidal => l.i_prev + h / (2 * l.inductance) * (v_new + l.v_prev)
    | .trBdf2 =>
      let gamma := TRBDF2_GAMMA
      let alpha := (1 - gamma) / (gamma * (2 - gamma))
      let di := h / l.inductance *
        ((1 + alpha) * v_new - (1 + 2 * alpha) * l.v_prev + alpha * l.v_prev)
      l.i_prev + di
  { l with i_prev := i', i_prev_prev := i', v_prev := v_new }

/-- Inductor update after the TR-BDF2 intermediate stage
(companion.rs, `update_trbdf2_intermediate`); `v_prev` is deliberately not
updated here (the main loop does it). -/
def InductorState.update_trbdf2_intermediate (l : InductorState)
    (v_gamma h : ℚ) : InductorState :=
  let gamma := TRBDF2_GAMMA
  let h_gamma := gamma * h
  let ipp := l.i_prev
  let i' := l.i_prev + h_gamma / (2 * l.inductance) * (v_gamma + l.v_prev)
  { l with i_prev_prev := ipp, i_prev := i' }

/-- Inductor LTE estimate (companion.rs, `estimate_lte`). -/
def InductorState.estimate_lte (l : InductorState) (v_new h : ℚ) : ℚ :=
  let di_trap := h / (2 * l.inductance) * (v_new + l.v_prev)
  let di_be := h / l.inductance * v_new
  |di_trap - di_be| / 3

/-- Inductor terminal voltage read from a solution vector. -/
def InductorState.voltage_from_solution (l : InductorState)
    (solution : List ℚ) : ℚ :=
  voltageFromSolution l.node_pos l.node_neg solution

/-- The inductor TR-BDF2 full-step update in the form the spec describes it:
the capacitor three-point history formula mirrored under `L ↔ 1/C`, with the
alpha-weighted history term referencing the voltage from two steps ago
(`v_two_ago`, the voltage at the start of the full step) rather than the
one-step-ago voltage.  This is the spec-side formula of the refinement
claim; the code-side formula is `InductorState.update`. -/
def inductorTrBdf2MirrorUpdate (inductance i_prev v_prev v_two_ago v_new h : ℚ) :
    ℚ :=
  let gamma := TRBDF2_GAMMA
  let alpha := (1 - gamma) / (gamma * (2 - gamma))
  i_prev + h / inductance *
    ((1 + alpha) * v_new - (1 + 2 * alpha) * v_prev + alpha * v_two_ago)

/-- A concrete inductor used to exercise the TR-BDF2 step: `L = 1`, all
history zero, terminals at rows 0 and 1. -/
def c2IndStart : InductorState :=
  { inductance := 1, i_prev := 0, v_prev := 0, i_prev_prev := 0
    node_pos := some 0, node_neg := some 1 }

/-- The inductor above after the TR-BDF2 intermediate stage with
`v_gamma = 1`, `h = 1`, followed by the solver's `ind.v_prev = v` assignment
(transient/solver.rs line 219).  The start-of-step voltage was `0`. -/
def c2IndMid : InductorState :=
  { c2IndStart.update_trbdf2_intermediate 1 1 with v_prev := 1 }

/-- A concrete capacitor exercising the stamp contract of C5. -/
def c5Cap : CapacitorState :=
  { capacitance := 1, v_prev := 2, i_prev := 3, v_prev_prev := 0
    node_pos := some 0, node_neg := some 1 }

/-- A concrete two-node MNA system for the C5 witness. -/
def c5Mna : MnaSystem :=
  { num_nodes := 2, num_vsources := 0, triplets := [], rhs := [0, 0] }

/-! ### Transient result types and interpolation (transient/result.rs) -/

/-- A single timepoint in a transient simulation result. -/
structure TimePoint where
  time : ℚ
  solution : List ℚ
deriving Repr

/-- Result of a fixed-step transient simulation. -/
structure TransientResult where
  points : List TimePoint
  num_nodes : ℕ
deriving Repr

/-- Result of an adaptive transient simulation with statistics.  The source
initialises `min_step_used` to `f64::INFINITY`; that is modelled as `none`
here, with `some v` for a finite minimum. -/
structure AdaptiveTransientResult where
  points : List TimePoint
  num_nodes : ℕ
  total_steps : ℕ
  rejected_steps : ℕ
  min_step_used : Option ℚ
  max_step_used : ℚ
deriving Repr

/-- The interval scan of `interpolate_at` (transient/result.rs lines 55-65):
walk consecutive point pairs and linearly interpolate in the first interval
`[t0, t1]` containing `time`. -/
def interpScan (time : ℚ) : List TimePoint → Option (List ℚ)
  | p0 :: p1 :: rest =>
    if p0.time ≤ time ∧ time ≤ p1.time then
      let alpha := (time - p0.time) / (p1.time - p0.time)
      some (List.zipWith (fun v0 v1 => v0 * (1 - alpha) + v1 * alpha)
        p0.solution p1.solution)
    else interpScan time (p1 :: rest)
  | _ => none

/-- `TransientResult::interpolate_at` (transient/result.rs lines 41-69):
`none` on an empty result; clamp to the first solution at or before the
first time and to the last solution at or after the last time; otherwise
scan for the containing interval. -/
def TransientResult.interpolate_at (r : TransientResult) (time : ℚ) :
    Option (List ℚ) :=
  match r.points with
  | [] => none
  | p0 :: rest =>
    if time ≤ p0.time then some p0.solution
    else
      let lastp := (p0 :: rest).getLast (List.cons_ne_nil p0 rest)
      if lastp.time ≤ time then some lastp.solution
      else interpScan time (p0 :: rest)

/-- `AdaptiveTransientResult::interpolate_at` (transient/result.rs lines
145-173); the source duplicates the fixed-step body verbatim. -/
def AdaptiveTransientResult.interpolate_at (r : AdaptiveTransientResult)
    (time : ℚ) : Option (List ℚ) :=
  match r.points with
  | [] => none
  | p0 :: rest =>
    if time ≤ p0.time then some p0.solution
    else
      let lastp := (p0 :: rest).getLast (List.cons_ne_nil p0 rest)
      if lastp.time ≤ time then some lastp.solution
      else interpScan time (p0 :: rest)

/-- Concrete three-point transient result used by the interpolation
witnesses. -/
def witTR : TransientResult :=
  { points := [⟨0, [1, 10]⟩, ⟨1, [2, 20]⟩, ⟨2, [3, 30]⟩], num_nodes := 2 }

/-- Concrete adaptive transient result used by the interpolation
witnesses. -/
def witATR : AdaptiveTransientResult :=
  { points := [⟨0, [1, 10]⟩, ⟨1, [2, 20]⟩, ⟨2, [3, 30]⟩], num_nodes := 2
    total_steps := 2, rejected_steps := 0, min_step_used := some 1
    max_step_used := 1 }

/-! ### Convergence tracking (spicier-batched-sweep/convergence.rs)

Out-of-range indexing panics in Rust; the model returns the tracker
unchanged in those cases, so every theorem speaks about the states reached
by non-panicking executions. -/

/-- Convergence status for a single sweep point. -/
inductive ConvergenceStatus
  | active
  | converged
  | failed
  | singular
deriving DecidableEq, Repr

/-- Whether the point still needs iterations (convergence.rs `is_active`). -/
def ConvergenceStatus.isActive : ConvergenceStatus → Bool
  | .active => true
  | _ => false

/-- Tracks convergence status for a batch of sweep points. -/
structure ConvergenceTracker where
  status : List ConvergenceStatus
  iterations : List ℕ
  max_iterations : ℕ
  active_count : ℕ
deriving DecidableEq, Repr

/-- Fresh tracker with a custom iteration limit: all points `Active` with
zero iterations (convergence.rs `with_max_iterations`). -/
def ConvergenceTracker.withMaxIterations (batch_size max_iterations : ℕ) :
    ConvergenceTracker :=
  { status := List.replicate batch_size .active
    iterations := List.replicate batch_size 0
    max_iterations := max_iterations
    active_count := batch_size }

/-- Fresh tracker with the default limit of 50 iterations. -/
def ConvergenceTracker.new (batch_size : ℕ) : ConvergenceTracker :=
  ConvergenceTracker.withMaxIterations batch_size 50

/-- Mark a point converged if it is currently active
(convergence.rs `mark_converged`). -/
def ConvergenceTracker.mark_converged (t : ConvergenceTracker) (index : ℕ) :
    ConvergenceTracker :=
  if h : index < t.status.length then
    if (t.status.get ⟨index, h⟩).isActive then
      { t with
        status := t.status.set index ConvergenceStatus.converged
        active_count := t.active_count - 1 }
    else t
  else t

/-- Mark a point failed if it is currently active
(convergence.rs `mark_failed`). -/
def ConvergenceTracker.mark_failed (t : ConvergenceTracker) (index : ℕ) :
    ConvergenceTracker :=
  if h : index < t.status.length then
    if (t.status.get ⟨index, h⟩).isActive then
      { t with
        status := t.status.set index ConvergenceStatus.failed
        active_count := t.active_count - 1 }
    else t
  else t

/-- Mark a point singular if it is currently active
(convergence.rs `mark_singular`). -/
def ConvergenceTracker.mark_singular (t : ConvergenceTracker) (index : ℕ) :
    ConvergenceTracker :=
  if h : index < t.status.length then
    if (t.status.get ⟨index, h⟩).isActive then
      { t with
        status := t.status.set index ConvergenceStatus.singular
        active_count := t.active_count - 1 }
    else t
  else t

/-- Increment a point's iteration count; points reaching `max_iterations`
while active are marked failed (convergence.rs `increment_iteration`). -/
def ConvergenceTracker.increment_iteration (t : ConvergenceTracker)
    (index : ℕ) : ConvergenceTracker :=
  if index < t.iterations.length ∧ index < t.status.length then
    if t.max_iterations ≤ t.iterations.getD index 0 + 1
        ∧ (t.status.getD index .active).isActive then
      ConvergenceTracker.mark_failed
        { t with iterations :=
            t.iterations.set index (t.iterations.getD index 0 + 1) } index
    else
      { t with iterations :=
          t.iterations.set index (t.iterations.getD index 0 + 1) }
  else t

/-- Increment the iteration count of every active point
(convergence.rs `increment_all_active`). -/
def ConvergenceTracker.increment_all_active (t : ConvergenceTracker) :
    ConvergenceTracker :=
  (List.range t.status.length).foldl (fun acc i =>
    if (acc.status.getD i .active).isActive then
      acc.increment_iteration i
    else acc) t

/-- Per-point solution-change convergence check
(convergence.rs `check_convergence`): every active point whose maximum
absolute solution change stays within `abstol + reltol * |value|` on all
`n` variables is marked converged.  The source also returns the count of
newly converged points; only the state effect is modelled. -/
def ConvergenceTracker.check_convergence (t : ConvergenceTracker)
    (solution_changes : List ℚ) (n : ℕ) (abstol reltol : ℚ)
    (solutions : List ℚ) : ConvergenceTracker :=
  if solution_changes.length = t.status.length * n
      ∧ solutions.length = t.status.length * n then
    (List.range t.status.length).foldl (fun acc i =>
      if (acc.status.getD i .active).isActive then
        if (List.range n).all (fun j =>
            decide (|solution_changes.getD (i * n + j) 0|
              ≤ abstol + reltol * |solutions.getD (i * n + j) 0|)) then
          acc.mark_converged i
        else acc
      else acc) t
  else t

/-- Per-point residual-norm convergence check
(convergence.rs `check_residual_convergence`).  The source compares
`norm_sq.sqrt() < tolerance`; over an exact field that is equivalent to
`0 < tolerance ∧ norm_sq < tolerance ^ 2`, which is what is written here. -/
def ConvergenceTracker.check_residual_convergence (t : ConvergenceTracker)
    (residuals : List ℚ) (n : ℕ) (tolerance : ℚ) : ConvergenceTracker :=
  if residuals.length = t.status.length * n then
    (List.range t.status.length).foldl (fun acc i =>
      if (acc.status.getD i .active).isActive then
        if 0 < tolerance
            ∧ ((List.range n).map
                (fun j => residuals.getD (i * n + j) 0 ^ 2)).sum
              < tolerance ^ 2 then
          acc.mark_converged i
        else acc
      else acc) t
  else t

/-- One mutating operation on a `ConvergenceTracker`. -/
inductive TrackerOp
  | markConverged (index : ℕ)
  | markFailed (index : ℕ)
  | markSingular (index : ℕ)
  | incrementIteration (index : ℕ)
  | incrementAllActive
  | checkConvergence (solution_changes : List ℚ) (n : ℕ)
      (abstol reltol : ℚ) (solutions : List ℚ)
  | checkResidualConvergence (residuals : List ℚ) (n : ℕ) (tolerance : ℚ)

/-- Apply one operation to a tracker. -/
def TrackerOp.apply (t : ConvergenceTracker) : TrackerOp → ConvergenceTracker
  | .markConverged i => t.mark_converged i
  | .markFailed i => t.mark_failed i
  | .markSingular i => t.mark_singular i
  | .incrementIteration i => t.increment_iteration i
  | .incrementAllActive => t.increment_all_active
  | .checkConvergence ch n a r sol => t.check_convergence ch n a r sol
  | .checkResidualConvergence res n tol =>
      t.check_residual_convergence res n tol

/-- Apply a sequence of operations to a tracker. -/
def applyOps (t : ConvergenceTracker) (ops : List TrackerOp) :
    ConvergenceTracker :=
  ops.foldl TrackerOp.apply t

/-- The cached-count invariant of the tracker: `active_count` equals the
number of `Active` entries. -/
def activeCountInv (t : ConvergenceTracker) : Prop :=
  t.active_count = t.status.countP (fun s => s.isActive)

/-! ### Adaptive transient stepping (transient/solver.rs lines 494-676)

`solve_transient_adaptive` builds an MNA system through the caller-supplied
`TransientStamper` trait object, stamps the trapezoidal companions and
solves with dense or cached-sparse LU.  The loop's accept/reject control
only observes the resulting solution vector, so the assemble-and-solve
pipeline enters the model as the oracle parameter `solveAt t h caps inds`,
and `f64::sqrt` as `sqrtFn`; all step-control theorems hold for arbitrary
oracles. -/

/-- Adaptive transient parameters (transient/types.rs).  The `method` field
exists in the source but the adaptive loop always stamps and updates with
the trapezoidal method. -/
structure AdaptiveTransientParams where
  tstop : ℚ
  h_init : ℚ
  h_min : ℚ
  h_max : ℚ
  reltol : ℚ
  abstol : ℚ
  method : IntegrationMethod
deriving Repr

/-- The mutable state of the adaptive loop: current time and step size,
companion states, the saved rollback copies `(v_prev, i_prev)` per
capacitor and `(i_prev, v_prev)` per inductor, the last accepted solution
and the result being accumulated. -/
structure AdaptiveLoopState where
  t : ℚ
  h : ℚ
  caps : List CapacitorState
  inds : List InductorState
  savedCaps : List (ℚ × ℚ)
  savedInds : List (ℚ × ℚ)
  solution : List ℚ
  result : AdaptiveTransientResult
deriving Repr

/-- The step size attempted this iteration: `h` clamped to
`[h_min, h_max]`, then shortened to land exactly on `tstop`
(solver.rs lines 564-570). -/
def stepH (params : AdaptiveTransientParams) (st : AdaptiveLoopState) : ℚ :=
  let h1 := min (max st.h params.h_min) params.h_max
  if params.tstop < st.t + h1 then params.tstop - st.t else h1

/-- Maximum per-element LTE estimate over all capacitors and inductors at
the candidate solution (solver.rs lines 599-612). -/
def stepMaxLte (st : AdaptiveLoopState) (newSol : List ℚ) (h : ℚ) : ℚ :=
  st.inds.foldl (fun m l =>
    max m (l.estimate_lte (l.voltage_from_solution newSol) h))
    (st.caps.foldl (fun m c =>
      max m (c.estimate_lte (c.voltage_from_solution newSol) h)) 0)

/-- Maximum reference magnitude: the new capacitor voltages and the
previous inductor currents (solver.rs lines 600-613). -/
def stepMaxRef (st : AdaptiveLoopState) (newSol : List ℚ) : ℚ :=
  st.inds.foldl (fun m l => max m |l.i_prev|)
    (st.caps.foldl (fun m c => max m |c.voltage_from_solution newSol|) 0)

/-- The acceptance tolerance `max(abstol, reltol * max_ref)`
(solver.rs line 617). -/
def stepTol (params : AdaptiveTransientParams) (st : AdaptiveLoopState)
    (newSol : List ℚ) : ℚ :=
  max params.abstol (params.reltol * stepMaxRef st newSol)

/-- The loop body's `new_solution` local (solver.rs lines 572-596): the
oracle applied at the current time, the attempted step and the current
companion states. -/
def stepSol
    (solveAt : ℚ → ℚ → List CapacitorState → List InductorState → List ℚ)
    (params : AdaptiveTransientParams) (st : AdaptiveLoopState) : List ℚ :=
  solveAt st.t (stepH params st) st.caps st.inds

/-- The loop body's `max_lte` local at the candidate solution. -/
def stepLte
    (solveAt : ℚ → ℚ → List CapacitorState → List InductorState → List ℚ)
    (params : AdaptiveTransientParams) (st : AdaptiveLoopState) : ℚ :=
  stepMaxLte st (stepSol solveAt params st) (stepH params st)

/-- The loop body's `tol` local at the candidate solution. -/
def stepTolV
    (solveAt : ℚ → ℚ → List CapacitorState → List InductorState → List ℚ)
    (params : AdaptiveTransientParams) (st : AdaptiveLoopState) : ℚ :=
  stepTol params st (stepSol solveAt params st)

/-- The capacitor states after an accepted step (solver.rs lines 644-647). -/
def acceptCaps
    (solveAt : ℚ → ℚ → List CapacitorState → List InductorState → List ℚ)
    (params : AdaptiveTransientParams) (st : AdaptiveLoopState) :
    List CapacitorState :=
  st.caps.map (fun c =>
    c.update (c.voltage_from_solution (stepSol solveAt params st))
      (stepH params st) .trapezoidal)

/-- The inductor states after an accepted step (solver.rs lines 648-651). -/
def acceptInds
    (solveAt : ℚ → ℚ → List CapacitorState → List InductorState → List ℚ)
    (params : AdaptiveTransientParams) (st : AdaptiveLoopState) :
    List InductorState :=
  st.inds.map (fun l =>
    l.update (l.voltage_from_solution (stepSol solveAt params st))
      (stepH params st) .trapezoidal)

/-- One iteration of the adaptive loop body (solver.rs lines 563-672).
Reject (LTE above tolerance and `h` above `h_min`): restore the saved
`(v_prev, i_prev)` pairs and rescale
`h * max(0.1, min(0.5, sqrt(tol / max_lte)))`.  Accept: advance time,
update and re-save the companion states, record the point and optionally
grow `h * min(1.5, min(2, sqrt(tol / max(max_lte, 1e-20))))`. -/
def adaptiveStep (sqrtFn : ℚ → ℚ)
    (solveAt : ℚ → ℚ → List CapacitorState → List InductorState → List ℚ)
    (params : AdaptiveTransientParams) (st : AdaptiveLoopState) :
    AdaptiveLoopState :=
  if stepTolV solveAt params st < stepLte solveAt params st
      ∧ params.h_min < stepH params st then
    { st with
      h := stepH params st
        * max (min (sqrtFn (stepTolV solveAt params st
            / stepLte solveAt params st)) (1/2)) (1/10)
      caps := (st.caps.zip st.savedCaps).map (fun cv =>
        { cv.1 with v_prev := cv.2.1, i_prev := cv.2.2 })
      inds := (st.inds.zip st.savedInds).map (fun lv =>
        { lv.1 with i_prev := lv.2.1, v_prev := lv.2.2 })
      result := { st.result with
        total_steps := st.result.total_steps + 1
        rejected_steps := st.result.rejected_steps + 1 } }
  else
    { t := st.t + stepH params st
      h := if stepLte solveAt params st < stepTolV solveAt params st * (1/2)
          ∧ stepH params st < params.h_max then
          stepH params st * min (min (sqrtFn (stepTolV solveAt params st
            / max (stepLte solveAt params st) (1 / 10 ^ 20))) 2) (3/2)
        else stepH params st
      caps := acceptCaps solveAt params st
      inds := acceptInds solveAt params st
      savedCaps := (acceptCaps solveAt params st).map
        (fun c => (c.v_prev, c.i_prev))
      savedInds := (acceptInds solveAt params st).map
        (fun l => (l.i_prev, l.v_prev))
      solution := stepSol solveAt params st
      result := { st.result with
        total_steps := st.result.total_steps + 1
        min_step_used := some (match st.result.min_step_used with
          | none => stepH params st
          | some v => min v (stepH params st))
        max_step_used := max st.result.max_step_used (stepH params st)
        points := st.result.points
          ++ [⟨st.t + stepH params st, stepSol solveAt params st⟩] } }

/-- The adaptive loop (solver.rs line 563 `while t < tstop`), fuel-indexed:
any execution prefix of the source loop is reached by a sufficient fuel. -/
def adaptiveLoop (sqrtFn : ℚ → ℚ)
    (solveAt : ℚ → ℚ → List CapacitorState → List InductorState → List ℚ)
    (params : AdaptiveTransientParams) :
    ℕ → AdaptiveLoopState → AdaptiveLoopState
  | 0, st => st
  | fuel + 1, st =>
    if st.t < params.tstop then
      adaptiveLoop sqrtFn solveAt params fuel
        (adaptiveStep sqrtFn solveAt params st)
    else st

/-- Concrete capacitor for the adaptive-step counterexamples: `C = 1`,
zero history, positive terminal at row 0. -/
def caCap : CapacitorState :=
  { capacitance := 1, v_prev := 0, i_prev := 0, v_prev_prev := 0
    node_pos := some 0, node_neg := none }

/-- Oracle producing the candidate solution `[1]` (one node at 1 volt). -/
def caOracle : ℚ → ℚ → List CapacitorState → List InductorState → List ℚ :=
  fun _ _ _ _ => [1]

/-- C1 counterexample parameters: `h_min = 1` equals the attempted step, so
the reject branch is unreachable, with a tolerance far below the LTE. -/
def c1Params : AdaptiveTransientParams :=
  { tstop := 10, h_init := 1, h_min := 1, h_max := 1,
    reltol := 0, abstol := 1/1000, method := .trapezoidal }

/-- C1 counterexample loop state at `t = 0`, `h = 1`. -/
def c1State : AdaptiveLoopState :=
  { t := 0, h := 1, caps := [caCap], inds := [],
    savedCaps := [(0, 0)], savedInds := [], solution := [0],
    result := ⟨[⟨0, [0]⟩], 1, 0, 0, none, 0⟩ }

/-- C3 counterexample parameters: `h_min` small so the step is rejected;
`abstol = 1/12` makes `tol / LTE = 1/4`. -/
def c3Params : AdaptiveTransientParams :=
  { tstop := 10, h_init := 1, h_min := 1/1000, h_max := 1,
    reltol := 0, abstol := 1/12, method := .trapezoidal }

/-- C3 counterexample loop state. -/
def c3State : AdaptiveLoopState :=
  { t := 0, h := 1, caps := [caCap], inds := [],
    savedCaps := [(0, 0)], savedInds := [], solution := [0],
    result := ⟨[⟨0, [0]⟩], 1, 0, 0, none, 0⟩ }

/-- A square-root model agreeing with `f64::sqrt` at the only argument the
C3 counterexample evaluates it on (`sqrt(1/4) = 1/2`, exact in `f64`). -/
def c3Sqrt : ℚ → ℚ := fun q => if q = 1/4 then 1/2 else 0

/-! ### Batched LU solvers (spicier-batched-sweep)

The nalgebra and faer factorisations are external crates; they enter the
model as function parameters (`none` = factorisation failed / solution not
finite).  A Rust panic (out-of-bounds slicing) is modelled as the distinct
outcome `.error .panic`, which is not a value of the source's error enum. -/

/-- Outcome classes of a batched solve call: the source's
`BatchedSweepError::InvalidDimension` and `::Backend`, plus `panic` for a
Rust panic. -/
inductive BatchErr
  | invalidDimension
  | backend
  | panic
deriving DecidableEq, Repr

/-- Result of a batched LU solve (solver.rs `BatchedSolveResult`). -/
structure BatchedSolveResult where
  solutions : List ℚ
  singular_indices : List ℕ
  n : ℕ
  batch_size : ℕ
deriving DecidableEq, Repr

/-- `CpuBatchedSolver::solve_batch` (solver.rs lines 258-334): validate the
packed buffer lengths, then per system run the external LU solve; a
singular system contributes zeros and its index. -/
def cpuSolveBatch (luSolve : List ℚ → List ℚ → Option (List ℚ))
    (matrices rhs : List ℚ) (n batch_size : ℕ) :
    Except BatchErr BatchedSolveResult :=
  if matrices.length ≠ batch_size * n * n then .error .invalidDimension
  else if rhs.length ≠ batch_size * n then .error .invalidDimension
  else
    .ok ((List.range batch_size).foldl (fun acc i =>
      match luSolve ((matrices.drop (i * n * n)).take (n * n))
          ((rhs.drop (i * n)).take n) with
      | some sol => { acc with solutions := acc.solutions ++ sol }
      | none =>
        { acc with
          solutions := acc.solutions ++ List.replicate n 0
          singular_indices := acc.singular_indices ++ [i] })
      { solutions := [], singular_indices := [], n := n,
        batch_size := batch_size })

/-- `dense_to_sparse_triplets` (faer_sparse_solver.rs lines 182-193):
column-major dense data to triplets, keeping entries with
`|val| > 1e-15`. -/
def dense_to_sparse_triplets (data : List ℚ) (n : ℕ) : List (ℕ × ℕ × ℚ) :=
  (List.range n).bind (fun col =>
    (List.range n).filterMap (fun row =>
      if 1 / 10 ^ 15 < |data.getD (col * n + row) 0| then
        some (row, col, data.getD (col * n + row) 0)
      else none))

/-- The per-system loop of the faer sparse-cached backend
(faer_sparse_solver.rs lines 142-158), using `solve_with_symbolic`:
triplet conversion is `dense_to_sparse_triplets`; the sparse construction,
numeric factorisation and finiteness check are the external `trySolve`. -/
def faerLoop {Sym : Type}
    (trySolve : Sym → List (ℕ × ℕ × ℚ) → List ℚ → ℕ → Option (List ℚ))
    (sym : Sym) (matrices rhs : List ℚ) (n batch_size : ℕ) :
    BatchedSolveResult :=
  (List.range batch_size).foldl (fun acc i =>
    match trySolve sym
        (dense_to_sparse_triplets ((matrices.drop (i * n * n)).take (n * n)) n)
        ((rhs.drop (i * n)).take n) n with
    | some sol => { acc with solutions := acc.solutions ++ sol }
    | none =>
      { acc with
        solutions := acc.solutions ++ List.replicate n 0
        singular_indices := acc.singular_indices ++ [i] })
    { solutions := [], singular_indices := [], n := n,
      batch_size := batch_size }

/-- `FaerSparseCachedBatchedSolver::solve_batch` (faer_sparse_solver.rs
lines 69-166).  `cache` models the RwLock contents
`(symbolic, expected_size)`.  With an empty cache the source slices
`&matrices[0..n*n]` before consulting `batch_size`; when the buffer is
shorter than `n*n` that slice panics, modelled as `.error .panic`. -/
def faerSolveBatch {Sym : Type}
    (trySymbolic : List (ℕ × ℕ × ℚ) → ℕ → Option Sym)
    (trySolve : Sym → List (ℕ × ℕ × ℚ) → List ℚ → ℕ → Option (List ℚ))
    (cache : Option Sym × Option ℕ) (matrices rhs : List ℚ)
    (n batch_size : ℕ) : Except BatchErr BatchedSolveResult :=
  if matrices.length ≠ batch_size * n * n then .error .invalidDimension
  else if rhs.length ≠ batch_size * n then .error .invalidDimension
  else
    match cache.1 with
    | some sym =>
      if cache.2 ≠ some n then .error .invalidDimension
      else .ok (faerLoop trySolve sym matrices rhs n batch_size)
    | none =>
      if n * n ≤ matrices.length then
        match trySymbolic
            (dense_to_sparse_triplets (matrices.take (n * n)) n) n with
        | none => .error .backend
        | some sym => .ok (faerLoop trySolve sym matrices rhs n batch_size)
      else .error .panic

/-- The per-system loop of `solve_batch_triplets` (faer_sparse_solver.rs
lines 291-348); a mismatched RHS length aborts the whole batch. -/
def faerTripletLoop {Sym : Type}
    (trySolve : Sym → List (ℕ × ℕ × ℚ) → List ℚ → ℕ → Option (List ℚ))
    (sym : Sym) (n : ℕ) :
    ℕ → List (List (ℕ × ℕ × ℚ) × List ℚ) → BatchedSolveResult →
    Except BatchErr BatchedSolveResult
  | _, [], acc => .ok acc
  | i, (t, r) :: rest, acc =>
    if r.length ≠ n then .error .invalidDimension
    else
      match trySolve sym t r n with
      | some sol =>
        faerTripletLoop trySolve sym n (i + 1) rest
          { acc with solutions := acc.solutions ++ sol }
      | none =>
        faerTripletLoop trySolve sym n (i + 1) rest
          { acc with
            solutions := acc.solutions ++ List.replicate n 0
            singular_indices := acc.singular_indices ++ [i] }

/-- `FaerTripletBatchedSolver::solve_batch_triplets` (faer_sparse_solver.rs
lines 248-356): an explicit `batch_size == 0` early return precedes the
symbolic factorisation of the first system. -/
def faerSolveBatchTriplets {Sym : Type}
    (trySymbolic : List (ℕ × ℕ × ℚ) → ℕ → Option Sym)
    (trySolve : Sym → List (ℕ × ℕ × ℚ) → List ℚ → ℕ → Option (List ℚ))
    (triplets_per_system : List (List (ℕ × ℕ × ℚ)))
    (rhs_per_system : List (List ℚ)) (n : ℕ) :
    Except BatchErr BatchedSolveResult :=
  if rhs_per_system.length ≠ triplets_per_system.length then
    .error .invalidDimension
  else if triplets_per_system.length = 0 then
    .ok { solutions := [], singular_indices := [], n := n, batch_size := 0 }
  else
    match trySymbolic (triplets_per_system.getD 0 []) n with
    | none => .error .backend
    | some sym =>
      faerTripletLoop trySolve sym n 0
        (triplets_per_system.zip rhs_per_system)
        { solutions := [], singular_indices := [], n := n,
          batch_size := triplets_per_system.length }

/-! ### GMRES (gmres/real.rs, gmres/helpers.rs, preconditioner.rs)

`f64::sqrt` enters as the parameter `sqrtFn`; the operator trait
`RealOperator` as an `apply` function together with its dimension. -/

/-- Modelled from the spec: `real_dot_product` of the `spicier-simd` crate
is not under the sources; spec section 4.3 describes it as a
capability-dispatched inner product, i.e. `∑ x_i * y_i`. -/
def real_dot_product (x y : List ℚ) : ℚ :=
  (List.zipWith (fun a c => a * c) x y).sum

/-- `real_vec_norm` (gmres/helpers.rs lines 12-14). -/
def real_vec_norm (sqrtFn : ℚ → ℚ) (v : List ℚ) : ℚ :=
  sqrtFn (real_dot_product v v)

/-- `real_givens_rotation` (gmres/helpers.rs lines 40-48). -/
def real_givens_rotation (sqrtFn : ℚ → ℚ) (a b : ℚ) : ℚ × ℚ :=
  if |b| < tiny then (1, 0)
  else (a / sqrtFn (a * a + b * b), b / sqrtFn (a * a + b * b))

/-- GMRES configuration `{max_iter, tol, restart}` (gmres/mod.rs). -/
structure GmresConfig where
  max_iter : ℕ
  tol : ℚ
  restart : ℕ
deriving Repr

/-- Result of a real GMRES solve (gmres/real.rs `RealGmresResult`).  The
`residual` of the unreachable fall-through return is `f64::NAN` in the
source, modelled as `none`; every other return carries `some` value. -/
structure RealGmresResult where
  x : List ℚ
  iterations : ℕ
  residual : Option ℚ
  converged : Bool
deriving DecidableEq, Repr

/-- A real preconditioner: its `apply` map and its dimension
(preconditioner.rs `RealPreconditioner`). -/
structure RealPreconditionerModel where
  apply : List ℚ → List ℚ
  dim : ℕ

/-- The identity preconditioner (preconditioner.rs lines 174-193):
`apply` copies its input unchanged. -/
def IdentityPreconditioner (size : ℕ) : RealPreconditionerModel :=
  { apply := fun x => x, dim := size }

/-- Bookkeeping state of the Arnoldi/Givens inner loop: the Krylov vectors
`v`, the Hessenberg columns `h`, the rotated RHS `g`, the stored rotations
`cs`/`sn`, the inner index `k` and the running iteration count. -/
structure GmresInnerState where
  v : List (List ℚ)
  h : List (List ℚ)
  g : List ℚ
  cs : List ℚ
  sn : List ℚ
  k : ℕ
  total_iter : ℕ
deriving Repr

/-- Inner state of the preconditioned loop: additionally carries
`z[k] = M⁻¹ v[k]`. -/
structure GmresInnerStateP where
  v : List (List ℚ)
  z : List (List ℚ)
  h : List (List ℚ)
  g : List ℚ
  cs : List ℚ
  sn : List ℚ
  k : ℕ
  total_iter : ℕ
deriving Repr

/-- Drop the `z` component. -/
def eraseZ (s : GmresInnerStateP) : GmresInnerState :=
  ⟨s.v, s.h, s.g, s.cs, s.sn, s.k, s.total_iter⟩

/-- Re-attach a `z` component. -/
def attachZ (s : GmresInnerState) (z : List (List ℚ)) : GmresInnerStateP :=
  ⟨s.v, z, s.h, s.g, s.cs, s.sn, s.k, s.total_iter⟩

/-- Write `val` at position `(k, j)` of the Hessenberg column list. -/
def updRow (hm : List (List ℚ)) (k j : ℕ) (val : ℚ) : List (List ℚ) :=
  hm.set k ((hm.getD k []).set j val)

/-- Modified Gram-Schmidt over `j = 0..k` (gmres/real.rs lines 101-107):
for each `j`, `h[k][j] = ⟨v[j], w⟩` and `w ← w - h[k][j] v[j]`. -/
def mgsFold (v : List (List ℚ)) (k : ℕ) (w0 : List ℚ)
    (h0 : List (List ℚ)) : List ℚ × List (List ℚ) :=
  (List.range (k + 1)).foldl (fun acc j =>
    (List.zipWith (fun wi vi =>
        wi - real_dot_product (v.getD j []) acc.1 * vi)
      acc.1 (v.getD j []),
     updRow acc.2 k j (real_dot_product (v.getD j []) acc.1)))
    (w0, h0)

/-- Apply the previously stored Givens rotations to column `k`
(gmres/real.rs lines 123-127). -/
def applyRotations (cs sn : List ℚ) (k : ℕ) (row : List ℚ) : List ℚ :=
  (List.range k).foldl (fun r j =>
    (r.set (j + 1) (-(sn.getD j 0) * r.getD j 0 + cs.getD j 0
        * r.getD (j + 1) 0)).set j
      (cs.getD j 0 * r.getD j 0 + sn.getD j 0 * r.getD (j + 1) 0)) row

/-- The Givens half of the iteration body (gmres/real.rs lines 118-146),
entered when no lucky breakdown occurred: normalise `w` into `v[k+1]`,
rotate column `k`, compute and store the new rotation, update `g`, and
report whether `|g[k+1]| / ‖b‖ < tol` breaks the loop. -/
def givensPart (sqrtFn : ℚ → ℚ) (b_norm tol : ℚ) (st : GmresInnerState)
    (w : List ℚ) (h2 : List (List ℚ)) (w_norm : ℚ) :
    GmresInnerState × Bool :=
  ({ v := st.v ++ [w.map (fun wi => wi * (1 / w_norm))]
     h := h2.set st.k
       (((applyRotations st.cs st.sn st.k (h2.getD st.k [])).set
          (st.k + 1) 0).set st.k
        ((real_givens_rotation sqrtFn
            ((applyRotations st.cs st.sn st.k (h2.getD st.k [])).getD st.k 0)
            ((applyRotations st.cs st.sn st.k
              (h2.getD st.k [])).getD (st.k + 1) 0)).1
          * (applyRotations st.cs st.sn st.k (h2.getD st.k [])).getD st.k 0
         + (real_givens_rotation sqrtFn
            ((applyRotations st.cs st.sn st.k (h2.getD st.k [])).getD st.k 0)
            ((applyRotations st.cs st.sn st.k
              (h2.getD st.k [])).getD (st.k + 1) 0)).2
          * (applyRotations st.cs st.sn st.k
              (h2.getD st.k [])).getD (st.k + 1) 0))
     g := (st.g.set (st.k + 1)
        (-(real_givens_rotation sqrtFn
            ((applyRotations st.cs st.sn st.k (h2.getD st.k [])).getD st.k 0)
            ((applyRotations st.cs st.sn st.k
              (h2.getD st.k [])).getD (st.k + 1) 0)).2 * st.g.getD st.k 0
         + (real_givens_rotation sqrtFn
            ((applyRotations st.cs st.sn st.k (h2.getD st.k [])).getD st.k 0)
            ((applyRotations st.cs st.sn st.k
              (h2.getD st.k [])).getD (st.k + 1) 0)).1
          * st.g.getD (st.k + 1) 0)).set st.k
        ((real_givens_rotation sqrtFn
            ((applyRotations st.cs st.sn st.k (h2.getD st.k [])).getD st.k 0)
            ((applyRotations st.cs st.sn st.k
              (h2.getD st.k [])).getD (st.k + 1) 0)).1 * st.g.getD st.k 0
         + (real_givens_rotation sqrtFn
            ((applyRotations st.cs st.sn st.k (h2.getD st.k [])).getD st.k 0)
            ((applyRotations st.cs st.sn st.k
              (h2.getD st.k [])).getD (st.k + 1) 0)).2
          * st.g.getD (st.k + 1) 0)
     cs := st.cs.set st.k (real_givens_rotation sqrtFn
        ((applyRotations st.cs st.sn st.k (h2.getD st.k [])).getD st.k 0)
        ((applyRotations st.cs st.sn st.k
          (h2.getD st.k [])).getD (st.k + 1) 0)).1
     sn := st.sn.set st.k (real_givens_rotation sqrtFn
        ((applyRotations st.cs st.sn st.k (h2.getD st.k [])).getD st.k 0)
        ((applyRotations st.cs st.sn st.k
          (h2.getD st.k [])).getD (st.k + 1) 0)).2
     k := st.k + 1
     total_iter := st.total_iter },
   decide (|((st.g.set (st.k + 1)
        (-(real_givens_rotation sqrtFn
            ((applyRotations st.cs st.sn st.k (h2.getD st.k [])).getD st.k 0)
            ((applyRotations st.cs st.sn st.k
              (h2.getD st.k [])).getD (st.k + 1) 0)).2 * st.g.getD st.k 0
         + (real_givens_rotation sqrtFn
            ((applyRotations st.cs st.sn st.k (h2.getD st.k [])).getD st.k 0)
            ((applyRotations st.cs st.sn st.k
              (h2.getD st.k [])).getD (st.k + 1) 0)).1
          * st.g.getD (st.k + 1) 0)).set st.k
        ((real_givens_rotation sqrtFn
            ((applyRotations st.cs st.sn st.k (h2.getD st.k [])).getD st.k 0)
            ((applyRotations st.cs st.sn st.k
              (h2.getD st.k [])).getD (st.k + 1) 0)).1 * st.g.getD st.k 0
         + (real_givens_rotation sqrtFn
            ((applyRotations st.cs st.sn st.k (h2.getD st.k [])).getD st.k 0)
            ((applyRotations st.cs st.sn st.k
              (h2.getD st.k [])).getD (st.k + 1) 0)).2
          * st.g.getD (st.k + 1) 0)).getD (st.k + 1) 0| / b_norm < tol))

/-- One Arnoldi/Givens iteration body after `w = A * (candidate)` has been
computed (gmres/real.rs lines 96-148; the preconditioned variant's lines
298-349 are textually identical): modified Gram-Schmidt, breakdown check,
then the Givens half.  The `Bool` reports whether the inner loop breaks. -/
def arnoldiGivens (sqrtFn : ℚ → ℚ) (b_norm tol : ℚ)
    (st : GmresInnerState) (w : List ℚ) : GmresInnerState × Bool :=
  if real_vec_norm sqrtFn (mgsFold st.v st.k w st.h).1 < tiny then
    ({ st with
        h := updRow (mgsFold st.v st.k w st.h).2 st.k (st.k + 1)
          (real_vec_norm sqrtFn (mgsFold st.v st.k w st.h).1)
        k := st.k + 1 }, true)
  else
    givensPart sqrtFn b_norm tol st (mgsFold st.v st.k w st.h).1
      (updRow (mgsFold st.v st.k w st.h).2 st.k (st.k + 1)
        (real_vec_norm sqrtFn (mgsFold st.v st.k w st.h).1))
      (real_vec_norm sqrtFn (mgsFold st.v st.k w st.h).1)

/-- The unpreconditioned inner `while k < m` loop (gmres/real.rs lines
89-149): `w = A v[k]`.  Entered with `fuel = m`, which the `k` increments
can never exhaust before `k = m`. -/
def gmresInnerLoop (op : List ℚ → List ℚ) (sqrtFn : ℚ → ℚ)
    (b_norm tol : ℚ) (m max_iter : ℕ) :
    ℕ → GmresInnerState → GmresInnerState
  | 0, st => st
  | fuel + 1, st =>
    if st.k < m then
      if max_iter < st.total_iter + 1 then
        { st with total_iter := st.total_iter + 1 }
      else
        if (arnoldiGivens sqrtFn b_norm tol
            ⟨st.v, st.h, st.g, st.cs, st.sn, st.k, st.total_iter + 1⟩
            (op (st.v.getD st.k []))).2 then
          (arnoldiGivens sqrtFn b_norm tol
            ⟨st.v, st.h, st.g, st.cs, st.sn, st.k, st.total_iter + 1⟩
            (op (st.v.getD st.k []))).1
        else
          gmresInnerLoop op sqrtFn b_norm tol m max_iter fuel
            (arnoldiGivens sqrtFn b_norm tol
              ⟨st.v, st.h, st.g, st.cs, st.sn, st.k, st.total_iter + 1⟩
              (op (st.v.getD st.k []))).1
    else st

/-- The preconditioned inner loop (gmres/real.rs lines 287-350):
`z[k] = M⁻¹ v[k]` is pushed, then `w = A z[k]`. -/
def gmresInnerLoopP (precond op : List ℚ → List ℚ) (sqrtFn : ℚ → ℚ)
    (b_norm tol : ℚ) (m max_iter : ℕ) :
    ℕ → GmresInnerStateP → GmresInnerStateP
  | 0, st => st
  | fuel + 1, st =>
    if st.k < m then
      if max_iter < st.total_iter + 1 then
        { st with total_iter := st.total_iter + 1 }
      else
        if (arnoldiGivens sqrtFn b_norm tol
            ⟨st.v, st.h, st.g, st.cs, st.sn, st.k, st.total_iter + 1⟩
            (op ((st.z ++ [precond (st.v.getD st.k [])]).getD st.k []))).2 then
          attachZ
            (arnoldiGivens sqrtFn b_norm tol
              ⟨st.v, st.h, st.g, st.cs, st.sn, st.k, st.total_iter + 1⟩
              (op ((st.z ++ [precond (st.v.getD st.k [])]).getD st.k []))).1
            (st.z ++ [precond (st.v.getD st.k [])])
        else
          gmresInnerLoopP precond op sqrtFn b_norm tol m max_iter fuel
            (attachZ
              (arnoldiGivens sqrtFn b_norm tol
                ⟨st.v, st.h, st.g, st.cs, st.sn, st.k, st.total_iter + 1⟩
                (op
                  ((st.z ++ [precond (st.v.getD st.k [])]).getD st.k []))).1
              (st.z ++ [precond (st.v.getD st.k [])]))
    else st

/-- Back-substitution `H y = g` on the leading `k × k` block
(gmres/real.rs lines 152-161): a diagonal entry with magnitude not above
`1e-30` leaves `y[i] = 0`. -/
def backSub (hm : List (List ℚ)) (g : List ℚ) (k : ℕ) : List ℚ :=
  ((List.range k).reverse).foldl (fun y i =>
    if tiny < |(hm.getD i []).getD i 0| then
      y.set i (((List.range k).drop (i + 1)).foldl
        (fun s j => s - (hm.getD j []).getD i 0 * y.getD j 0)
        (g.getD i 0) / (hm.getD i []).getD i 0)
    else y)
    (List.replicate k 0)

/-- The fresh Arnoldi state at the start of a restart cycle
(gmres/real.rs lines 69-88): `v = [r / ‖r‖]`, zeroed Hessenberg columns,
`g = ‖r‖ e₁` and zeroed rotation stores. -/
def initInner (m : ℕ) (r : List ℚ) (r_norm : ℚ) (total_iter : ℕ) :
    GmresInnerState :=
  { v := [r.map (fun ri => ri * (1 / r_norm))]
    h := List.replicate m (List.replicate (m + 1) 0)
    g := (List.replicate (m + 1) 0).set 0 r_norm
    cs := List.replicate m 0
    sn := List.replicate m 0
    k := 0
    total_iter := total_iter }

/-- The `x ← x + (V or Z) y` update at the end of a restart cycle
(gmres/real.rs lines 163-168 and 364-369), with `y` from `backSub`. -/
def xUpdate (res : GmresInnerState × List (List ℚ)) (x : List ℚ) : List ℚ :=
  (List.range res.1.k).foldl (fun xx i =>
    List.zipWith (fun xj vj =>
        xj + vj * (backSub res.1.h res.1.g res.1.k).getD i 0) xx
      (res.2.getD i [])) x

/-- The explicit residual `‖b - A x‖` recomputed after the update
(gmres/real.rs lines 170-178). -/
def explicitResidual (op : List ℚ → List ℚ) (sqrtFn : ℚ → ℚ)
    (b x' : List ℚ) : ℚ :=
  sqrtFn ((List.zipWith (fun bi axi => (bi - axi) ^ 2) b (op x')).sum)

/-- The tail of a restart cycle (gmres/real.rs lines 151-196):
back-substitute, update `x` along the `k` directions, recompute the
explicit residual, then either return (`inl`) or continue with the next
cycle's `(x, total_iter)` (`inr`). -/
def gmresCycleFinish (op : List ℚ → List ℚ) (sqrtFn : ℚ → ℚ) (b : List ℚ)
    (cfg : GmresConfig) (b_norm : ℚ)
    (res : GmresInnerState × List (List ℚ)) (x : List ℚ) :
    RealGmresResult ⊕ (List ℚ × ℕ) :=
  if explicitResidual op sqrtFn b (xUpdate res x) / b_norm < cfg.tol then
    Sum.inl ⟨xUpdate res x, res.1.total_iter,
      some (explicitResidual op sqrtFn b (xUpdate res x) / b_norm), true⟩
  else if cfg.max_iter ≤ res.1.total_iter then
    Sum.inl ⟨xUpdate res x, res.1.total_iter,
      some (explicitResidual op sqrtFn b (xUpdate res x) / b_norm), false⟩
  else
    Sum.inr (xUpdate res x, res.1.total_iter)

/-- The restart-cycle skeleton shared by `solve_gmres_real` (lines 49-197)
and `solve_gmres_real_preconditioned` (lines 246-398), whose cycle bodies
are textually identical in the source except for the preconditioner
application inside the Arnoldi loop and the update basis (`V` versus `Z`);
both differences live in `innerRun`, which runs the inner loop from the
normalised residual and returns the final bookkeeping state together with
the list of update directions.  Exhausting `fuel` models the source's
fall-through return with `residual = NAN` (`none`). -/
def gmresCycles (op : List ℚ → List ℚ) (sqrtFn : ℚ → ℚ) (b : List ℚ)
    (cfg : GmresConfig) (b_norm : ℚ)
    (innerRun : List ℚ → ℚ → ℕ → GmresInnerState × List (List ℚ)) :
    ℕ → List ℚ → ℕ → RealGmresResult
  | 0, x, total_iter => ⟨x, total_iter, none, false⟩
  | fuel + 1, x, total_iter =>
    if real_vec_norm sqrtFn (List.zipWith (fun bi axi => bi - axi) b (op x))
        / b_norm < cfg.tol then
      ⟨x, total_iter,
        some (real_vec_norm sqrtFn
          (List.zipWith (fun bi axi => bi - axi) b (op x)) / b_norm), true⟩
    else
      match gmresCycleFinish op sqrtFn b cfg b_norm
        (innerRun
          (List.zipWith (fun bi axi => bi - axi) b (op x))
          (real_vec_norm sqrtFn
            (List.zipWith (fun bi axi => bi - axi) b (op x)))
          total_iter) x with
      | Sum.inl final => final
      | Sum.inr cont =>
        gmresCycles op sqrtFn b cfg b_norm innerRun fuel cont.1 cont.2

/-- `solve_gmres_real` (gmres/real.rs lines 30-206); the dimension assert
is modelled as `none`, the zero-RHS early return as an immediate converged
result. -/
def solve_gmres_real (op : List ℚ → List ℚ) (n : ℕ) (sqrtFn : ℚ → ℚ)
    (b : List ℚ) (cfg : GmresConfig) : Option RealGmresResult :=
  if b.length ≠ n then none
  else if real_vec_norm sqrtFn b < tiny then
    some ⟨List.replicate n 0, 0, some 0, true⟩
  else
    some (gmresCycles op sqrtFn b cfg (real_vec_norm sqrtFn b)
      (fun r r_norm ti =>
        (fun s => (s, s.v))
          (gmresInnerLoop op sqrtFn (real_vec_norm sqrtFn b) cfg.tol
            (min cfg.restart n) cfg.max_iter (min cfg.restart n)
            (initInner (min cfg.restart n) r r_norm ti)))
      cfg.max_iter (List.replicate n 0) 0)

/-- `solve_gmres_real_preconditioned` (gmres/real.rs lines 218-406); both
dimension asserts are modelled as `none`; the update uses `Z = M⁻¹ V`. -/
def solve_gmres_real_preconditioned (op : List ℚ → List ℚ) (n : ℕ)
    (precond : RealPreconditionerModel) (sqrtFn : ℚ → ℚ) (b : List ℚ)
    (cfg : GmresConfig) : Option RealGmresResult :=
  if b.length ≠ n then none
  else if precond.dim ≠ n then none
  else if real_vec_norm sqrtFn b < tiny then
    some ⟨List.replicate n 0, 0, some 0, true⟩
  else
    some (gmresCycles op sqrtFn b cfg (real_vec_norm sqrtFn b)
      (fun r r_norm ti =>
        (fun s => (eraseZ s, s.z))
          (gmresInnerLoopP precond.apply op sqrtFn (real_vec_norm sqrtFn b)
            cfg.tol (min cfg.restart n) cfg.max_iter (min cfg.restart n)
            (attachZ (initInner (min cfg.restart n) r r_norm ti) [])))
      cfg.max_iter (List.replicate n 0) 0)

/-! ### Helper lemmas about the MNA model -/

theorem listAdd_getD_self (xs : List ℚ) (i : ℕ) (v : ℚ) (h : i < xs.length) :
    (listAdd xs i v).getD i 0 = xs.getD i 0 + v := by
  simp [listAdd, List.getD_eq_getElem?_getD, List.getElem?_set_self, h,
    List.getElem?_eq_getElem]

theorem listAdd_getD_ne (xs : List ℚ) (i j : ℕ) (v : ℚ) (h : i ≠ j) :
    (listAdd xs i v).getD j 0 = xs.getD j 0 := by
  simp [listAdd, List.getD_eq_getElem?_getD, List.getElem?_set_ne h]

theorem matEntry_append (m : MnaSystem) (l : List (ℕ × ℕ × ℚ)) (r c : ℕ) :
    MnaSystem.matEntry { m with triplets := m.triplets ++ l } r c
      = m.matEntry r c
        + (l.map (fun t => if t.1 = r ∧ t.2.1 = c then t.2.2 else 0)).sum := by
  simp [MnaSystem.matEntry]

theorem stamp_conductance_triplets (m : MnaSystem) (p q : ℕ) (g : ℚ) :
    (m.stamp_conductance (some p) (some q) g).triplets
      = m.triplets ++ [(p, p, g), (q, q, g), (p, q, -g), (q, p, -g)] := by
  simp [MnaSystem.stamp_conductance]

theorem stamp_current_source_triplets (m : MnaSystem) (p q : Option ℕ) (i : ℚ) :
    (m.stamp_current_source p q i).triplets = m.triplets := by
  cases p <;> cases q <;> simp [MnaSystem.stamp_current_source]

theorem stamp_conductance_rhs (m : MnaSystem) (p q : Option ℕ) (g : ℚ) :
    (m.stamp_conductance p q g).rhs = m.rhs := by
  cases p <;> cases q <;> simp [MnaSystem.stamp_conductance]

theorem stamp_current_source_rhsEntry_pos (m : MnaSystem) (p q : ℕ) (i : ℚ)
    (hpq : p ≠ q) (hp : p < m.rhs.length) :
    (m.stamp_current_source (some p) (some q) i).rhsEntry p
      = m.rhsEntry p + i := by
  simp only [MnaSystem.stamp_current_source, MnaSystem.rhsEntry]
  rw [listAdd_getD_ne _ _ _ _ (Ne.symm hpq), listAdd_getD_self _ _ _ hp]

theorem stamp_current_source_rhsEntry_neg (m : MnaSystem) (p q : ℕ) (i : ℚ)
    (hpq : p ≠ q) (hq : q < m.rhs.length) :
    (m.stamp_current_source (some p) (some q) i).rhsEntry q
      = m.rhsEntry q - i := by
  simp only [MnaSystem.stamp_current_source, MnaSystem.rhsEntry]
  rw [listAdd_getD_self _ _ _ (by simpa [listAdd] using hq)]
  rw [listAdd_getD_ne _ _ _ _ hpq]
  ring

theorem stamp_conductance_matEntry (m : MnaSystem) (p q : ℕ) (g : ℚ)
    (hpq : p ≠ q) :
    (m.stamp_conductance (some p) (some q) g).matEntry p p
        = m.matEntry p p + g
    ∧ (m.stamp_conductance (some p) (some q) g).matEntry q q
        = m.matEntry q q + g
    ∧ (m.stamp_conductance (some p) (some q) g).matEntry p q
        = m.matEntry p q - g
    ∧ (m.stamp_conductance (some p) (some q) g).matEntry q p
        = m.matEntry q p - g := by
  have hqp : q ≠ p := Ne.symm hpq
  refine ⟨?_, ?_, ?_, ?_⟩ <;>
    · rw [show (m.stamp_conductance (some p) (some q) g)
          = { m with triplets := m.triplets
              ++ [(p, p, g), (q, q, g), (p, q, -g), (q, p, -g)] } from ?_]
      · rw [matEntry_append]
        simp [hpq, hqp]
        try ring
      · cases m
        simp [MnaSystem.stamp_conductance]

end Spicier

namespace Spicier

/-! ### Claim theorems for the companion models -/

/-- C9: immediately after every call to `InductorState::update`, for any
integration method, the stored `i_prev_prev` equals the just-updated
`i_prev`, so the pre-update inductor current is not retained as two-step
history; whereas `CapacitorState::update` stores the old `v_prev` into
`v_prev_prev` before overwriting `v_prev` with the new voltage. -/
theorem inductor_update_overwrites_two_step_history
    (l : InductorState) (c : CapacitorState) (v h : ℚ) (m : IntegrationMethod) :
    (l.update v h m).i_prev_prev = (l.update v h m).i_prev
    ∧ (c.update v h m).v_prev_prev = c.v_prev
    ∧ (c.update v h m).v_prev = v := by
  cases m <;> exact ⟨rfl, rfl, rfl⟩

/-- C2 counterexample: the inductor TR-BDF2 full-step update does not apply
the capacitor's three-point formula with the alpha term referencing the
two-steps-ago voltage.  Concretely: starting from a zero-history inductor
with `L = 1`, taking the intermediate stage with `v_gamma = 1`, `h = 1`
(start-of-step voltage `0`), the full-step update at `v_new = 0` disagrees
with the mirrored formula evaluated at the true two-steps-ago voltage `0`. -/
theorem inductor_trbdf2_not_mirror :
    (c2IndMid.update 0 1 .trBdf2).i_prev
      ≠ inductorTrBdf2MirrorUpdate 1 c2IndMid.i_prev c2IndMid.v_prev 0 0 1 := by
  simp only [c2IndMid, c2IndStart, InductorState.update,
    InductorState.update_trbdf2_intermediate, inductorTrBdf2MirrorUpdate,
    TRBDF2_GAMMA]
  norm_num

/-- C2 amended: the inductor TR-BDF2 full-step update uses the three-point
formula with the alpha-weighted history term referencing the one-step-ago
voltage `v_prev` (not a two-steps-ago value), so the formula collapses to
`i_prev + (h/L) * (1 + alpha) * (v_new - v_prev)`; equivalently it equals the
capacitor-mirrored formula only when the two-steps-ago slot is filled with
`v_prev` itself. -/
theorem inductor_trbdf2_update_formula (l : InductorState) (v_new h : ℚ) :
    (l.update v_new h .trBdf2).i_prev
      = l.i_prev + h / l.inductance *
          ((1 + (1 - TRBDF2_GAMMA) / (TRBDF2_GAMMA * (2 - TRBDF2_GAMMA)))
            * (v_new - l.v_prev))
    ∧ (l.update v_new h .trBdf2).i_prev
      = inductorTrBdf2MirrorUpdate l.inductance l.i_prev l.v_prev l.v_prev
          v_new h := by
  refine ⟨?_, ?_⟩ <;> simp only [InductorState.update,
    inductorTrBdf2MirrorUpdate] <;> ring_nf

/-- C5: the capacitor Backward Euler companion stamps `G_eq = C/h` into the
conductance positions and `I_eq = G_eq * v_prev` into the RHS (flowing from
`neg` to `pos`), with post-step update `i_prev = (C/h)(v_new - v_prev)`; the
Trapezoidal companion stamps `G_eq = 2C/h` and `I_eq = G_eq * v_prev +
i_prev`, with post-step update `i_prev = (2C/h)(v_new - v_prev) - i_prev`. -/
theorem capacitor_companion_contract
    (c : CapacitorState) (m : MnaSystem) (h v_new : ℚ) (p q : ℕ)
    (hp : c.node_pos = some p) (hq : c.node_neg = some q) (hpq : p ≠ q)
    (hpl : p < m.rhs.length) (hql : q < m.rhs.length) :
    ((c.stamp_be m h).matEntry p p = m.matEntry p p + c.capacitance / h
      ∧ (c.stamp_be m h).matEntry q q = m.matEntry q q + c.capacitance / h
      ∧ (c.stamp_be m h).matEntry p q = m.matEntry p q - c.capacitance / h
      ∧ (c.stamp_be m h).matEntry q p = m.matEntry q p - c.capacitance / h
      ∧ (c.stamp_be m h).rhsEntry q
          = m.rhsEntry q + c.capacitance / h * c.v_prev
      ∧ (c.stamp_be m h).rhsEntry p
          = m.rhsEntry p - c.capacitance / h * c.v_prev)
    ∧ (c.update v_new h .backwardEuler).i_prev
        = c.capacitance / h * (v_new - c.v_prev)
    ∧ ((c.stamp_trap m h).matEntry p p
          = m.matEntry p p + 2 * c.capacitance / h
      ∧ (c.stamp_trap m h).matEntry q q
          = m.matEntry q q + 2 * c.capacitance / h
      ∧ (c.stamp_trap m h).matEntry p q
          = m.matEntry p q - 2 * c.capacitance / h
      ∧ (c.stamp_trap m h).matEntry q p
          = m.matEntry q p - 2 * c.capacitance / h
      ∧ (c.stamp_trap m h).rhsEntry q
          = m.rhsEntry q + (2 * c.capacitance / h * c.v_prev + c.i_prev)
      ∧ (c.stamp_trap m h).rhsEntry p
          = m.rhsEntry p - (2 * c.capacitance / h * c.v_prev + c.i_prev))
    ∧ (c.update v_new h .trapezoidal).i_prev
        = 2 * c.capacitance / h * (v_new - c.v_prev) - c.i_prev := by
  have hmat := stamp_conductance_matEntry m p q (c.capacitance / h) hpq
  have hmat2 := stamp_conductance_matEntry m p q (2 * c.capacitance / h) hpq
  have hrhs := stamp_conductance_rhs m (some p) (some q) (c.capacitance / h)
  have hrhs2 :=
    stamp_conductance_rhs m (some p) (some q) (2 * c.capacitance / h)
  refine ⟨⟨?_, ?_, ?_, ?_, ?_, ?_⟩, rfl, ⟨?_, ?_, ?_, ?_, ?_, ?_⟩, rfl⟩
  all_goals
    simp only [CapacitorState.stamp_be, CapacitorState.stamp_trap, hp, hq]
  -- BE matrix entries: the current-source stamp leaves triplets untouched
  · rw [show ∀ x : MnaSystem, ∀ a b i, ∀ r s : ℕ,
        (MnaSystem.stamp_current_source x a b i).matEntry r s
          = x.matEntry r s from ?_]
    · exact hmat.1
    · intro x a b i r s
      simp [MnaSystem.matEntry, stamp_current_source_triplets]
  · rw [show ∀ x : MnaSystem, ∀ a b i, ∀ r s : ℕ,
        (MnaSystem.stamp_current_source x a b i).matEntry r s
          = x.matEntry r s from ?_]
    · exact hmat.2.1
    · intro x a b i r s
      simp [MnaSystem.matEntry, stamp_current_source_triplets]
  · rw [show ∀ x : MnaSystem, ∀ a b i, ∀ r s : ℕ,
        (MnaSystem.stamp_current_source x a b i).matEntry r s
          = x.matEntry r s from ?_]
    · exact hmat.2.2.1
    · intro x a b i r s
      simp [MnaSystem.matEntry, stamp_current_source_triplets]
  · rw [show ∀ x : MnaSystem, ∀ a b i, ∀ r s : ℕ,
        (MnaSystem.stamp_current_source x a b i).matEntry r s
          = x.matEntry r s from ?_]
    · exact hmat.2.2.2
    · intro x a b i r s
      simp [MnaSystem.matEntry, stamp_current_source_triplets]
  -- BE RHS entries: stamp_current_source with pos arg = node_neg
  · have := stamp_current_source_rhsEntry_pos
      (m.stamp_conductance (some p) (some q) (c.capacitance / h)) q p
      (c.capacitance / h * c.v_prev) (Ne.symm hpq) (by rw [hrhs]; exact hql)
    simpa [MnaSystem.rhsEntry, hrhs] using this
  · have := stamp_current_source_rhsEntry_neg
      (m.stamp_conductance (some p) (some q) (c.capacitance / h)) q p
      (c.capacitance / h * c.v_prev) (Ne.symm hpq) (by rw [hrhs]; exact hpl)
    simpa [MnaSystem.rhsEntry, hrhs] using this
  -- TR matrix entries
  · rw [show ∀ x : MnaSystem, ∀ a b i, ∀ r s : ℕ,
        (MnaSystem.stamp_current_source x a b i).matEntry r s
          = x.matEntry r s from ?_]
    · exact hmat2.1
    · intro x a b i r s
      simp [MnaSystem.matEntry, stamp_current_source_triplets]
  · rw [show ∀ x : MnaSystem, ∀ a b i, ∀ r s : ℕ,
        (MnaSystem.stamp_current_source x a b i).matEntry r s
          = x.matEntry r s from ?_]
    · exact hmat2.2.1
    · intro x a b i r s
      simp [MnaSystem.matEntry, stamp_current_source_triplets]
  · rw [show ∀ x : MnaSystem, ∀ a b i, ∀ r s : ℕ,
        (MnaSystem.stamp_current_source x a b i).matEntry r s
          = x.matEntry r s from ?_]
    · exact hmat2.2.2.1
    · intro x a b i r s
      simp [MnaSystem.matEntry, stamp_current_source_triplets]
  · rw [show ∀ x : MnaSystem, ∀ a b i, ∀ r s : ℕ,
        (MnaSystem.stamp_current_source x a b i).matEntry r s
          = x.matEntry r s from ?_]
    · exact hmat2.2.2.2
    · intro x a b i r s
      simp [MnaSystem.matEntry, stamp_current_source_triplets]
  -- TR RHS entries
  · have := stamp_current_source_rhsEntry_pos
      (m.stamp_conductance (some p) (some q) (2 * c.capacitance / h)) q p
      (2 * c.capacitance / h * c.v_prev + c.i_prev) (Ne.symm hpq)
      (by rw [hrhs2]; exact hql)
    simpa [MnaSystem.rhsEntry, hrhs2] using this
  · have := stamp_current_source_rhsEntry_neg
      (m.stamp_conductance (some p) (some q) (2 * c.capacitance / h)) q p
      (2 * c.capacitance / h * c.v_prev + c.i_prev) (Ne.symm hpq)
      (by rw [hrhs2]; exact hpl)
    simpa [MnaSystem.rhsEntry, hrhs2] using this

/-! ### Interpolation lemmas -/

theorem zipWith_interp_at_one (a : ℚ) (ha : a = 1) :
    ∀ (xs ys : List ℚ), xs.length = ys.length →
    List.zipWith (fun v0 v1 => v0 * (1 - a) + v1 * a) xs ys = ys := by
  subst ha
  intro xs
  induction xs with
  | nil =>
    intro ys h
    cases ys with
    | nil => rfl
    | cons b bs => simp at h
  | cons x xs ih =>
    intro ys h
    cases ys with
    | nil => simp at h
    | cons b bs =>
      simp only [List.zipWith, List.cons.injEq]
      refine ⟨by ring, ih bs (by simpa using h)⟩

theorem adaptive_interpolate_eq (ra : AdaptiveTransientResult) (time : ℚ) :
    ra.interpolate_at time
      = (TransientResult.mk ra.points ra.num_nodes).interpolate_at time := rfl

theorem interpScan_get (l : List TimePoint) :
    ∀ (j : ℕ) (hj : j + 1 < l.length),
    l.Pairwise (fun a b => a.time < b.time) →
    (∀ p ∈ l, ∀ q ∈ l, p.solution.length = q.solution.length) →
    interpScan (l.get ⟨j + 1, hj⟩).time l
      = some (l.get ⟨j + 1, hj⟩).solution := by
  induction l with
  | nil => intro j hj; simp at hj
  | cons p0 tail ih =>
    intro j hj hp hl
    match tail, hj with
    | p1 :: rest, hj =>
      cases j with
      | zero =>
        have h01 : p0.time < p1.time := by
          have := (List.pairwise_cons.mp hp).1 p1 (by simp)
          exact this
        have hne : p1.time - p0.time ≠ 0 := sub_ne_zero.mpr (ne_of_gt h01)
        have halpha : (p1.time - p0.time) / (p1.time - p0.time) = 1 :=
          div_self hne
        show interpScan p1.time (p0 :: p1 :: rest) = some p1.solution
        simp only [interpScan]
        rw [if_pos ⟨le_of_lt h01, le_refl _⟩]
        congr 1
        rw [halpha]
        exact zipWith_interp_at_one 1 rfl _ _
          (hl p0 (by simp) p1 (by simp))
      | succ s =>
        have hp' : (p1 :: rest).Pairwise (fun a b => a.time < b.time) :=
          (List.pairwise_cons.mp hp).2
        have hj' : s + 1 < (p1 :: rest).length := by
          simpa using Nat.lt_of_succ_lt_succ hj
        have hlt : p1.time < ((p1 :: rest).get ⟨s + 1, hj'⟩).time := by
          have := List.pairwise_iff_get.mp hp' ⟨0, by simp⟩ ⟨s + 1, hj'⟩
            (Fin.mk_lt_mk.mpr (Nat.succ_pos s))
          exact this
        have hget : (p0 :: p1 :: rest).get ⟨s + 1 + 1, hj⟩
            = (p1 :: rest).get ⟨s + 1, hj'⟩ := rfl
        rw [hget]
        show interpScan ((p1 :: rest).get ⟨s + 1, hj'⟩).time
          (p0 :: p1 :: rest) = _
        simp only [interpScan]
        rw [if_neg (by
          rintro ⟨-, hb⟩
          exact absurd hb (not_le.mpr hlt))]
        exact ih s hj' hp' (fun p hp q hq =>
          hl p (by simp [hp]) q (by simp [hq]))

theorem interpScan_isSome (time : ℚ) :
    ∀ (l : List TimePoint) (p0 p1 : TimePoint),
    p0.time ≤ time →
    time ≤ ((p0 :: p1 :: l).getLast (by simp)).time →
    (interpScan time (p0 :: p1 :: l)).isSome = true := by
  intro l
  induction l with
  | nil =>
    intro p0 p1 h0 h1
    simp only [List.getLast] at h1
    simp only [interpScan]
    rw [if_pos ⟨h0, h1⟩]
    rfl
  | cons r rest ih =>
    intro p0 p1 h0 h1
    by_cases hc : p0.time ≤ time ∧ time ≤ p1.time
    · simp only [interpScan]
      rw [if_pos hc]
      rfl
    · have hb : p1.time < time := by
        by_contra hnot
        exact hc ⟨h0, le_of_not_lt hnot⟩
      simp only [interpScan]
      rw [if_neg hc]
      exact ih p1 r (le_of_lt hb) (by
        have : ((p0 :: p1 :: r :: rest).getLast (by simp))
            = ((p1 :: r :: rest).getLast (by simp)) := by
          rw [List.getLast_cons]
        rw [this] at h1
        exact h1)

theorem interpolate_stored_aux (r : TransientResult) (i : ℕ)
    (hi : i < r.points.length)
    (hs : r.points.Pairwise (fun a b => a.time < b.time))
    (hl : ∀ p ∈ r.points, ∀ q ∈ r.points,
      p.solution.length = q.solution.length) :
    r.interpolate_at (r.points.get ⟨i, hi⟩).time
      = some (r.points.get ⟨i, hi⟩).solution := by
  rcases r with ⟨points, nn⟩
  match points, hi with
  | p0 :: rest, hi =>
    simp only at hs hl hi ⊢
    cases i with
    | zero =>
      show TransientResult.interpolate_at _ p0.time = some p0.solution
      simp only [TransientResult.interpolate_at]
      rw [if_pos (le_refl _)]
    | succ j =>
      have hfirst : p0.time < ((p0 :: rest).get ⟨j + 1, hi⟩).time := by
        have := List.pairwise_iff_get.mp hs ⟨0, by simp⟩ ⟨j + 1, hi⟩
          (Fin.mk_lt_mk.mpr (Nat.succ_pos j))
        exact this
      simp only [TransientResult.interpolate_at]
      rw [if_neg (not_le.mpr hfirst)]
      have hlast : (p0 :: rest).getLast (List.cons_ne_nil p0 rest)
          = (p0 :: rest).get ⟨(p0 :: rest).length - 1, by simp⟩ :=
        List.getLast_eq_get _ _
      by_cases hend : j + 1 = (p0 :: rest).length - 1
      · have heq : (p0 :: rest).getLast (List.cons_ne_nil p0 rest)
            = (p0 :: rest).get ⟨j + 1, hi⟩ := by
          rw [hlast]
          congr 1
          exact (Fin.mk_eq_mk.mpr hend.symm)
        rw [heq]
        rw [if_pos (le_refl _)]
      · have hmid : j + 1 < (p0 :: rest).length - 1 := by
          have hle : j + 1 ≤ (p0 :: rest).length - 1 :=
            Nat.le_sub_one_of_lt hi
          exact lt_of_le_of_ne hle hend
        have hlt : ((p0 :: rest).get ⟨j + 1, hi⟩).time
            < ((p0 :: rest).getLast (List.cons_ne_nil p0 rest)).time := by
          rw [hlast]
          exact List.pairwise_iff_get.mp hs ⟨j + 1, hi⟩
            ⟨(p0 :: rest).length - 1, by simp⟩ (Fin.mk_lt_mk.mpr hmid)
        rw [if_neg (not_le.mpr hlt)]
        exact interpScan_get (p0 :: rest) j hi hs hl

theorem interpolate_total_aux (r : TransientResult) (time : ℚ) :
    (r.points = [] → r.interpolate_at time = none)
    ∧ ∀ p0 rest, r.points = p0 :: rest →
        ((time ≤ p0.time → r.interpolate_at time = some p0.solution)
        ∧ (p0.time < time →
            ((p0 :: rest).getLast (List.cons_ne_nil p0 rest)).time ≤ time →
            r.interpolate_at time
              = some ((p0 :: rest).getLast
                  (List.cons_ne_nil p0 rest)).solution)
        ∧ (r.interpolate_at time).isSome = true) := by
  rcases r with ⟨points, nn⟩
  constructor
  · intro h
    simp only at h
    subst h
    rfl
  · intro p0 rest hpts
    simp only at hpts
    subst hpts
    refine ⟨?_, ?_, ?_⟩
    · intro hle
      simp only [TransientResult.interpolate_at]
      rw [if_pos hle]
    · intro hgt hle
      simp only [TransientResult.interpolate_at]
      rw [if_neg (not_le.mpr hgt)]
      rw [if_pos hle]
    · by_cases h1 : time ≤ p0.time
      · simp only [TransientResult.interpolate_at]
        rw [if_pos h1]
        rfl
      · simp only [TransientResult.interpolate_at]
        rw [if_neg h1]
        by_cases h2 : ((p0 :: rest).getLast (List.cons_ne_nil p0 rest)).time
            ≤ time
        · rw [if_pos h2]
          rfl
        · rw [if_neg h2]
          cases rest with
          | nil =>
            exfalso
            simp only [List.getLast] at h2
            exact h2 (le_of_lt (not_le.mp h1))
          | cons p1 rest' =>
            exact interpScan_isSome time rest' p0 p1
              (le_of_lt (not_le.mp h1)) (le_of_lt (not_le.mp h2))

/-- C7: interpolating a transient result (fixed-step or adaptive) at the
exact time of a stored point returns that point's solution verbatim.  The
hypotheses state that the stored times are strictly increasing and all
stored solution vectors have one common length, as the transient loops
guarantee. -/
theorem interpolate_at_stored_point
    (r : TransientResult) (ra : AdaptiveTransientResult) (i j : ℕ)
    (hi : i < r.points.length) (hj : j < ra.points.length)
    (hs : r.points.Pairwise (fun a b => a.time < b.time))
    (hsa : ra.points.Pairwise (fun a b => a.time < b.time))
    (hl : ∀ p ∈ r.points, ∀ q ∈ r.points,
      p.solution.length = q.solution.length)
    (hla : ∀ p ∈ ra.points, ∀ q ∈ ra.points,
      p.solution.length = q.solution.length) :
    r.interpolate_at (r.points.get ⟨i, hi⟩).time
        = some (r.points.get ⟨i, hi⟩).solution
    ∧ ra.interpolate_at (ra.points.get ⟨j, hj⟩).time
        = some (ra.points.get ⟨j, hj⟩).solution := by
  refine ⟨interpolate_stored_aux r i hi hs hl, ?_⟩
  rw [adaptive_interpolate_eq]
  exact interpolate_stored_aux ⟨ra.points, ra.num_nodes⟩ j hj hsa hla

/-- C7 witness: the stored-point property evaluated on a concrete
three-point result at its middle point. -/
theorem interpolate_at_stored_point_witness :
    1 < witTR.points.length ∧ 1 < witATR.points.length
    ∧ witTR.points.Pairwise (fun a b => a.time < b.time)
    ∧ witTR.interpolate_at 1 = some [2, 20] := by
  have hi : 1 < witTR.points.length := by simp [witTR]
  have hj : 1 < witATR.points.length := by simp [witATR]
  have hs : witTR.points.Pairwise (fun a b => a.time < b.time) := by
    simp only [witTR]
    norm_num [List.pairwise_cons]
  have hsa : witATR.points.Pairwise (fun a b => a.time < b.time) := by
    simp only [witATR]
    norm_num [List.pairwise_cons]
  have hl : ∀ p ∈ witTR.points, ∀ q ∈ witTR.points,
      p.solution.length = q.solution.length := by
    simp only [witTR]
    intro p hp q hq
    fin_cases hp <;> fin_cases hq <;> rfl
  have hla : ∀ p ∈ witATR.points, ∀ q ∈ witATR.points,
      p.solution.length = q.solution.length := by
    simp only [witATR]
    intro p hp q hq
    fin_cases hp <;> fin_cases hq <;> rfl
  have h := (interpolate_at_stored_point witTR witATR 1 1 hi hj hs hsa
    hl hla).1
  refine ⟨hi, hj, hs, ?_⟩
  have hget : (witTR.points.get ⟨1, hi⟩).time = 1 := rfl
  have hsol : (witTR.points.get ⟨1, hi⟩).solution = [2, 20] := rfl
  rw [hget, hsol] at h
  exact h

/-- C10: for a transient result (fixed-step or adaptive) with at least one
stored point, `interpolate_at` returns `some` solution for every query time:
times at or before the first stored time return the first stored solution,
times at or after the last stored time return the last stored solution, and
the result is `none` exactly when no points are stored. -/
theorem interpolate_at_total
    (r : TransientResult) (ra : AdaptiveTransientResult) (time : ℚ) :
    ((r.points = [] → r.interpolate_at time = none)
    ∧ ∀ p0 rest, r.points = p0 :: rest →
        ((time ≤ p0.time → r.interpolate_at time = some p0.solution)
        ∧ (p0.time < time →
            ((p0 :: rest).getLast (List.cons_ne_nil p0 rest)).time ≤ time →
            r.interpolate_at time
              = some ((p0 :: rest).getLast
                  (List.cons_ne_nil p0 rest)).solution)
        ∧ (r.interpolate_at time).isSome = true))
    ∧ ((ra.points = [] → ra.interpolate_at time = none)
    ∧ ∀ p0 rest, ra.points = p0 :: rest →
        ((time ≤ p0.time → ra.interpolate_at time = some p0.solution)
        ∧ (p0.time < time →
            ((p0 :: rest).getLast (List.cons_ne_nil p0 rest)).time ≤ time →
            ra.interpolate_at time
              = some ((p0 :: rest).getLast
                  (List.cons_ne_nil p0 rest)).solution)
        ∧ (ra.interpolate_at time).isSome = true)) := by
  refine ⟨interpolate_total_aux r time, ?_⟩
  have h := interpolate_total_aux ⟨ra.points, ra.num_nodes⟩ time
  simpa only [adaptive_interpolate_eq] using h

/-- C10 witness: the totality property evaluated on a concrete three-point
result at a query time beyond the last stored time. -/
theorem interpolate_at_total_witness :
    witTR.points = ⟨0, [1, 10]⟩ :: [⟨1, [2, 20]⟩, ⟨2, [3, 30]⟩]
    ∧ witTR.interpolate_at 5 = some [3, 30] := by
  have hpts : witTR.points
      = TimePoint.mk 0 [1, 10] :: [⟨1, [2, 20]⟩, ⟨2, [3, 30]⟩] := rfl
  have h := ((interpolate_at_total witTR witATR 5).1.2
    (TimePoint.mk 0 [1, 10]) [⟨1, [2, 20]⟩, ⟨2, [3, 30]⟩] hpts).2.1
    (by norm_num) (by norm_num [List.getLast])
  simpa [List.getLast] using ⟨hpts, h⟩

/-- C5 witness: the companion contract evaluated at a concrete capacitor
(`C = 1`, `v_prev = 2`, `i_prev = 3`) on a concrete two-node system with
`h = 1`, `v_new = 5`. -/
theorem capacitor_companion_contract_witness :
    c5Cap.node_pos = some 0 ∧ c5Cap.node_neg = some 1 ∧ (0 : ℕ) ≠ 1
    ∧ 0 < c5Mna.rhs.length ∧ 1 < c5Mna.rhs.length
    ∧ (c5Cap.update 5 1 .backwardEuler).i_prev
        = c5Cap.capacitance / 1 * (5 - c5Cap.v_prev) :=
  ⟨rfl, rfl, by decide, by decide, by decide,
    (capacitor_companion_contract c5Cap c5Mna 1 5 0 1 rfl rfl (by decide)
      (by decide) (by decide)).2.1⟩

/-! ### GMRES lemmas -/

theorem arnoldiGivens_shape (sqrtFn : ℚ → ℚ) (b_norm tol : ℚ)
    (st : GmresInnerState) (w : List ℚ) :
    (arnoldiGivens sqrtFn b_norm tol st w).1.k = st.k + 1
    ∧ (((arnoldiGivens sqrtFn b_norm tol st w).1.v = st.v
        ∧ (arnoldiGivens sqrtFn b_norm tol st w).2 = true)
      ∨ ∃ xv, (arnoldiGivens sqrtFn b_norm tol st w).1.v = st.v ++ [xv]) := by
  unfold arnoldiGivens
  split
  · exact ⟨rfl, Or.inl ⟨rfl, rfl⟩⟩
  · exact ⟨rfl, Or.inr ⟨_, rfl⟩⟩

theorem take_concat_getD (v : List (List ℚ)) (k : ℕ) (hk : k < v.length) :
    v.take k ++ [v.getD k []] = v.take (k + 1) := by
  rw [List.take_succ]
  congr 1
  rw [List.getElem?_eq_getElem hk]
  simp [List.getD_eq_getElem?_getD, List.getElem?_eq_getElem hk]

theorem take_getD (v : List (List ℚ)) (k i : ℕ) (h : i < k) :
    (v.take k).getD i [] = v.getD i [] := by
  simp [List.getD_eq_getElem?_getD, List.getElem?_take, h]

theorem concat_getD_length (z : List (List ℚ)) (x : List ℚ) (k : ℕ)
    (hk : z.length = k) : (z ++ [x]).getD k [] = x := by
  subst hk
  simp [List.getD_eq_getElem?_getD, List.getElem?_concat_length]

theorem gmresInner_sim (op : List ℚ → List ℚ) (sqrtFn : ℚ → ℚ)
    (b_norm tol : ℚ) (m max_iter : ℕ) :
    ∀ (fuel : ℕ) (stP : GmresInnerStateP),
    stP.z = stP.v.take stP.k → stP.v.length = stP.k + 1 →
    eraseZ (gmresInnerLoopP (fun x => x) op sqrtFn b_norm tol m max_iter
        fuel stP)
      = gmresInnerLoop op sqrtFn b_norm tol m max_iter fuel (eraseZ stP)
    ∧ (gmresInnerLoopP (fun x => x) op sqrtFn b_norm tol m max_iter
        fuel stP).z
      = (gmresInnerLoopP (fun x => x) op sqrtFn b_norm tol m max_iter
          fuel stP).v.take
        (gmresInnerLoopP (fun x => x) op sqrtFn b_norm tol m max_iter
          fuel stP).k := by
  intro fuel
  induction fuel with
  | zero => intro stP hz hv; exact ⟨rfl, hz⟩
  | succ f ih =>
    intro stP hz hv
    have hzlen : stP.z.length = stP.k := by
      rw [hz, List.length_take, hv]
      exact Nat.min_eq_left (Nat.le_succ _)
    have hkv : stP.k < stP.v.length := by omega
    have hgetD : (stP.z ++ [stP.v.getD stP.k []]).getD stP.k []
        = stP.v.getD stP.k [] := concat_getD_length _ _ _ hzlen
    have hz' : stP.z ++ [stP.v.getD stP.k []] = stP.v.take (stP.k + 1) := by
      rw [hz]
      exact take_concat_getD stP.v stP.k hkv
    by_cases hk : stP.k < m
    · by_cases hti : max_iter < stP.total_iter + 1
      · simp only [gmresInnerLoop, gmresInnerLoopP, eraseZ]
        rw [if_pos hk, if_pos hk, if_pos hti, if_pos hti]
        constructor
        · rfl
        · exact hz
      · have hshape := arnoldiGivens_shape sqrtFn b_norm tol
          ⟨stP.v, stP.h, stP.g, stP.cs, stP.sn, stP.k, stP.total_iter + 1⟩
          (op (stP.v.getD stP.k []))
        have hak : (arnoldiGivens sqrtFn b_norm tol
            ⟨stP.v, stP.h, stP.g, stP.cs, stP.sn, stP.k, stP.total_iter + 1⟩
            (op (stP.v.getD stP.k []))).1.k = stP.k + 1 := hshape.1
        have hav : ((arnoldiGivens sqrtFn b_norm tol
              ⟨stP.v, stP.h, stP.g, stP.cs, stP.sn, stP.k,
                stP.total_iter + 1⟩
              (op (stP.v.getD stP.k []))).1.v = stP.v
            ∧ (arnoldiGivens sqrtFn b_norm tol
              ⟨stP.v, stP.h, stP.g, stP.cs, stP.sn, stP.k,
                stP.total_iter + 1⟩
              (op (stP.v.getD stP.k []))).2 = true)
          ∨ ∃ xv, (arnoldiGivens sqrtFn b_norm tol
              ⟨stP.v, stP.h, stP.g, stP.cs, stP.sn, stP.k,
                stP.total_iter + 1⟩
              (op (stP.v.getD stP.k []))).1.v = stP.v ++ [xv] := hshape.2
        simp only [gmresInnerLoop, gmresInnerLoopP, eraseZ]
        rw [if_pos hk, if_pos hk, if_neg hti, if_neg hti, hgetD]
        by_cases hb2 : (arnoldiGivens sqrtFn b_norm tol
            ⟨stP.v, stP.h, stP.g, stP.cs, stP.sn, stP.k,
              stP.total_iter + 1⟩ (op (stP.v.getD stP.k []))).2 = true
        · rw [if_pos hb2, if_pos hb2]
          constructor
          · show eraseZ (attachZ _ _) = _
            simp only [eraseZ, attachZ]
          · show stP.z ++ [stP.v.getD stP.k []] = _
            rw [hz']
            show _ = (arnoldiGivens sqrtFn b_norm tol
              ⟨stP.v, stP.h, stP.g, stP.cs, stP.sn, stP.k,
                stP.total_iter + 1⟩
              (op (stP.v.getD stP.k []))).1.v.take
                (arnoldiGivens sqrtFn b_norm tol
                  ⟨stP.v, stP.h, stP.g, stP.cs, stP.sn, stP.k,
                    stP.total_iter + 1⟩
                  (op (stP.v.getD stP.k []))).1.k
            rw [hak]
            rcases hav with ⟨hveq, -⟩ | ⟨xv, hveq⟩
            · rw [hveq]
            · rw [hveq]
              rw [List.take_append_of_le_length (by omega)]
        · rw [if_neg hb2, if_neg hb2]
          rcases hav with ⟨-, hbtrue⟩ | ⟨xv, hveq⟩
          · exact absurd hbtrue hb2
          · have hih := ih (attachZ (arnoldiGivens sqrtFn b_norm tol
                ⟨stP.v, stP.h, stP.g, stP.cs, stP.sn, stP.k,
                  stP.total_iter + 1⟩ (op (stP.v.getD stP.k []))).1
                (stP.z ++ [stP.v.getD stP.k []]))
              (by
                show stP.z ++ [stP.v.getD stP.k []] = _
                rw [hz']
                show _ = (arnoldiGivens sqrtFn b_norm tol
                  ⟨stP.v, stP.h, stP.g, stP.cs, stP.sn, stP.k,
                    stP.total_iter + 1⟩
                  (op (stP.v.getD stP.k []))).1.v.take
                    (arnoldiGivens sqrtFn b_norm tol
                      ⟨stP.v, stP.h, stP.g, stP.cs, stP.sn, stP.k,
                        stP.total_iter + 1⟩
                      (op (stP.v.getD stP.k []))).1.k
                rw [hak, hveq]
                rw [List.take_append_of_le_length (by omega)])
              (by
                show (arnoldiGivens sqrtFn b_norm tol
                  ⟨stP.v, stP.h, stP.g, stP.cs, stP.sn, stP.k,
                    stP.total_iter + 1⟩
                  (op (stP.v.getD stP.k []))).1.v.length
                  = (arnoldiGivens sqrtFn b_norm tol
                    ⟨stP.v, stP.h, stP.g, stP.cs, stP.sn, stP.k,
                      stP.total_iter + 1⟩
                    (op (stP.v.getD stP.k []))).1.k + 1
                rw [hak, hveq]
                simp [hv])
            refine ⟨?_, hih.2⟩
            show eraseZ (gmresInnerLoopP (fun x => x) op sqrtFn b_norm tol
              m max_iter f _) = _
            rw [hih.1]
            congr 1
    · simp only [gmresInnerLoop, gmresInnerLoopP, eraseZ]
      rw [if_neg hk, if_neg hk]
      constructor
      · rfl
      · exact hz

theorem xUpdate_congr (res1 res2 : GmresInnerState × List (List ℚ))
    (h1 : res1.1 = res2.1)
    (h2 : ∀ i, i < res2.1.k → res1.2.getD i [] = res2.2.getD i [])
    (x : List ℚ) : xUpdate res1 x = xUpdate res2 x := by
  unfold xUpdate
  rw [h1]
  exact List.foldl_ext _ _ x (fun a i hi => by
    rw [h2 i (List.mem_range.mp hi)])

theorem gmresCycleFinish_congr (op : List ℚ → List ℚ) (sqrtFn : ℚ → ℚ)
    (b : List ℚ) (cfg : GmresConfig) (b_norm : ℚ)
    (res1 res2 : GmresInnerState × List (List ℚ)) (x : List ℚ)
    (h1 : res1.1 = res2.1)
    (h2 : ∀ i, i < res2.1.k → res1.2.getD i [] = res2.2.getD i []) :
    gmresCycleFinish op sqrtFn b cfg b_norm res1 x
      = gmresCycleFinish op sqrtFn b cfg b_norm res2 x := by
  unfold gmresCycleFinish
  rw [xUpdate_congr res1 res2 h1 h2 x, h1]

theorem gmresCycles_congr (op : List ℚ → List ℚ) (sqrtFn : ℚ → ℚ)
    (b : List ℚ) (cfg : GmresConfig) (b_norm : ℚ)
    (f1 f2 : List ℚ → ℚ → ℕ → GmresInnerState × List (List ℚ))
    (hrel : ∀ r rn ti, (f1 r rn ti).1 = (f2 r rn ti).1
      ∧ ∀ i, i < (f2 r rn ti).1.k →
        (f1 r rn ti).2.getD i [] = (f2 r rn ti).2.getD i []) :
    ∀ (fuel : ℕ) (x : List ℚ) (ti : ℕ),
    gmresCycles op sqrtFn b cfg b_norm f1 fuel x ti
      = gmresCycles op sqrtFn b cfg b_norm f2 fuel x ti := by
  intro fuel
  induction fuel with
  | zero => intro x ti; rfl
  | succ f ihf =>
    intro x ti
    simp only [gmresCycles]
    split
    · rfl
    · rw [gmresCycleFinish_congr op sqrtFn b cfg b_norm _ _ x
        (hrel _ _ ti).1 (hrel _ _ ti).2]
      split
      · rfl
      · exact ihf _ _

/-- C6: for every operator, every right-hand side and every GMRES
configuration — and every behaviour of the external square root —
`solve_gmres_real_preconditioned` with the `IdentityPreconditioner`
returns exactly the same result (solution, iteration count, residual and
convergence flag) as the unpreconditioned `solve_gmres_real`, because with
`z[k] = v[k]` every iterate coincides. -/
theorem gmres_identity_preconditioner_equiv (op : List ℚ → List ℚ)
    (n : ℕ) (sqrtFn : ℚ → ℚ) (b : List ℚ) (cfg : GmresConfig) :
    solve_gmres_real_preconditioned op n (IdentityPreconditioner n) sqrtFn
        b cfg
      = solve_gmres_real op n sqrtFn b cfg := by
  unfold solve_gmres_real_preconditioned solve_gmres_real
    IdentityPreconditioner
  by_cases hb : b.length ≠ n
  · rw [if_pos hb, if_pos hb]
  · rw [if_neg hb, if_neg hb, if_neg (by simp)]
    by_cases hn : real_vec_norm sqrtFn b < tiny
    · rw [if_pos hn, if_pos hn]
    · rw [if_neg hn, if_neg hn]
      congr 1
      apply gmresCycles_congr
      intro r rn ti
      have hsim := gmresInner_sim op sqrtFn (real_vec_norm sqrtFn b)
        cfg.tol (min cfg.restart n) cfg.max_iter (min cfg.restart n)
        (attachZ (initInner (min cfg.restart n) r rn ti) []) rfl rfl
      rw [show eraseZ (attachZ (initInner (min cfg.restart n) r rn ti) [])
          = initInner (min cfg.restart n) r rn ti from rfl] at hsim
      refine ⟨hsim.1, ?_⟩
      intro i hi
      have hz := hsim.2
      have hkeq : (gmresInnerLoopP (fun x => x) op sqrtFn
          (real_vec_norm sqrtFn b) cfg.tol (min cfg.restart n) cfg.max_iter
          (min cfg.restart n)
          (attachZ (initInner (min cfg.restart n) r rn ti) [])).k
          = (gmresInnerLoop op sqrtFn (real_vec_norm sqrtFn b) cfg.tol
            (min cfg.restart n) cfg.max_iter (min cfg.restart n)
            (initInner (min cfg.restart n) r rn ti)).k := by
        rw [← hsim.1]
        rfl
      have hveq : (gmresInnerLoopP (fun x => x) op sqrtFn
          (real_vec_norm sqrtFn b) cfg.tol (min cfg.restart n) cfg.max_iter
          (min cfg.restart n)
          (attachZ (initInner (min cfg.restart n) r rn ti) [])).v
          = (gmresInnerLoop op sqrtFn (real_vec_norm sqrtFn b) cfg.tol
            (min cfg.restart n) cfg.max_iter (min cfg.restart n)
            (initInner (min cfg.restart n) r rn ti)).v := by
        rw [← hsim.1]
        rfl
      show (gmresInnerLoopP (fun x => x) op sqrtFn
          (real_vec_norm sqrtFn b) cfg.tol (min cfg.restart n) cfg.max_iter
          (min cfg.restart n)
          (attachZ (initInner (min cfg.restart n) r rn ti) [])).z.getD i []
        = _
      rw [hz, hkeq, hveq]
      exact take_getD _ _ i hi

/-! ### Adaptive stepping lemmas -/

theorem zip_getElem? {α β : Type _} :
    ∀ (as : List α) (bs : List β) (i : ℕ) (a : α) (b : β),
    as[i]? = some a → bs[i]? = some b → (as.zip bs)[i]? = some (a, b) := by
  intro as
  induction as with
  | nil => intro bs i a b h; simp at h
  | cons x xs ih =>
    intro bs i a b ha hb
    cases bs with
    | nil => simp at hb
    | cons y ys =>
      cases i with
      | zero =>
        simp only [List.getElem?_cons_zero, Option.some.injEq] at ha hb
        simp [List.zip_cons_cons, ha, hb]
      | succ j =>
        simp only [List.getElem?_cons_succ] at ha hb
        simp only [List.zip_cons_cons, List.getElem?_cons_succ]
        exact ih ys j a b ha hb

/-- C1 counterexample: a concrete adaptive step attempted at
`h = h_min = 1` with LTE estimate `1/3` and tolerance `1/1000` is accepted
and appended to the result points even though the LTE exceeds the
tolerance, because the reject branch additionally requires `h > h_min`. -/
theorem adaptive_accepts_above_tolerance :
    (adaptiveStep c3Sqrt caOracle c1Params c1State).result.points.length
      = c1State.result.points.length + 1
    ∧ stepTolV caOracle c1Params c1State
      < stepLte caOracle c1Params c1State := by
  have hlte : stepLte caOracle c1Params c1State = 1/3 := by
    norm_num [stepLte, stepSol, stepH, stepMaxLte, caOracle, c1Params,
      c1State, caCap, CapacitorState.estimate_lte,
      CapacitorState.voltage_from_solution, voltageFromSolution]
  have htol : stepTolV caOracle c1Params c1State = 1/1000 := by
    norm_num [stepTolV, stepSol, stepH, stepTol, stepMaxRef, caOracle,
      c1Params, c1State, caCap, CapacitorState.voltage_from_solution,
      voltageFromSolution]
  have hh : stepH c1Params c1State = 1 := by
    norm_num [stepH, c1Params, c1State]
  constructor
  · unfold adaptiveStep
    rw [if_neg (by
      rintro ⟨-, hmin⟩
      rw [hh] at hmin
      norm_num [c1Params] at hmin)]
    simp [c1State]
  · rw [hlte, htol]
    norm_num

/-- C1 amended: a step of the adaptive loop is accepted and appended to the
result points only when the maximum per-element LTE estimate is at most
`max(abstol, reltol * max_ref)` or the attempted step size is already at or
below `h_min` (the minimum-step escape accepts regardless of LTE); the
reference magnitudes are the new capacitor voltages and the previous
inductor currents. -/
theorem adaptive_accept_condition (sqrtFn : ℚ → ℚ)
    (solveAt : ℚ → ℚ → List CapacitorState → List InductorState → List ℚ)
    (params : AdaptiveTransientParams) (st : AdaptiveLoopState)
    (haccept : (adaptiveStep sqrtFn solveAt params st).result.points.length
        = st.result.points.length + 1) :
    stepLte solveAt params st ≤ stepTolV solveAt params st
    ∨ stepH params st ≤ params.h_min := by
  by_cases hc : stepTolV solveAt params st < stepLte solveAt params st
      ∧ params.h_min < stepH params st
  · exfalso
    unfold adaptiveStep at haccept
    rw [if_pos hc] at haccept
    simp only at haccept
    omega
  · rcases not_and_or.mp hc with h1 | h2
    · exact Or.inl (le_of_not_lt h1)
    · exact Or.inr (le_of_not_lt h2)

/-- C1 witness: the amended acceptance condition applied at the concrete
minimum-step state. -/
theorem adaptive_accept_condition_witness :
    (adaptiveStep c3Sqrt caOracle c1Params c1State).result.points.length
      = c1State.result.points.length + 1
    ∧ (stepLte caOracle c1Params c1State ≤ stepTolV caOracle c1Params c1State
      ∨ stepH c1Params c1State ≤ c1Params.h_min) := by
  have hacc : (adaptiveStep c3Sqrt caOracle c1Params
      c1State).result.points.length = c1State.result.points.length + 1 := by
    unfold adaptiveStep
    rw [if_neg (by
      rintro ⟨-, hmin⟩
      have hh : stepH c1Params c1State = 1 := by
        norm_num [stepH, c1Params, c1State]
      rw [hh] at hmin
      norm_num [c1Params] at hmin)]
    simp [c1State]
  exact ⟨hacc,
    adaptive_accept_condition c3Sqrt caOracle c1Params c1State hacc⟩

/-- C3 counterexample: at a concrete rejected step with `tol / LTE = 1/4`
the source rescales `h` to `1 * max(0.1, min(0.5, 1/2)) = 1/2`, while the
claim's formula `h * max(0.1, 0.8 * sqrt(tol/LTE))` gives `2/5`. -/
theorem adaptive_reject_rescale_not_spec :
    (adaptiveStep c3Sqrt caOracle c3Params c3State).result.rejected_steps
      = c3State.result.rejected_steps + 1
    ∧ (adaptiveStep c3Sqrt caOracle c3Params c3State).h
      ≠ stepH c3Params c3State
        * max (1/10) ((8/10) * c3Sqrt (stepTolV caOracle c3Params c3State
            / stepLte caOracle c3Params c3State)) := by
  have hlte : stepLte caOracle c3Params c3State = 1/3 := by
    norm_num [stepLte, stepSol, stepH, stepMaxLte, caOracle, c3Params,
      c3State, caCap, CapacitorState.estimate_lte,
      CapacitorState.voltage_from_solution, voltageFromSolution]
  have htol : stepTolV caOracle c3Params c3State = 1/12 := by
    norm_num [stepTolV, stepSol, stepH, stepTol, stepMaxRef, caOracle,
      c3Params, c3State, caCap, CapacitorState.voltage_from_solution,
      voltageFromSolution]
  have hh : stepH c3Params c3State = 1 := by
    norm_num [stepH, c3Params, c3State]
  have hcond : stepTolV caOracle c3Params c3State
      < stepLte caOracle c3Params c3State
      ∧ c3Params.h_min < stepH c3Params c3State := by
    rw [hlte, htol, hh]
    norm_num [c3Params]
  constructor
  · unfold adaptiveStep
    rw [if_pos hcond]
  · unfold adaptiveStep
    rw [if_pos hcond]
    simp only
    rw [hlte, htol, hh]
    norm_num [c3Sqrt]

/-- C3 amended: whenever the adaptive loop rejects a step (LTE above
tolerance and `h > h_min`), the time and recorded points are unchanged, the
saved capacitor `(v_prev, i_prev)` and inductor `(i_prev, v_prev)`
histories are restored into the companion states, and the step size is
rescaled to `h * max(0.1, min(0.5, sqrt(tol / LTE)))` — the source caps the
square-root factor at `0.5` instead of multiplying by a `0.8` safety
factor. -/
theorem adaptive_reject_behaviour (sqrtFn : ℚ → ℚ)
    (solveAt : ℚ → ℚ → List CapacitorState → List InductorState → List ℚ)
    (params : AdaptiveTransientParams) (st : AdaptiveLoopState)
    (hreject : (adaptiveStep sqrtFn solveAt params st).result.rejected_steps
        = st.result.rejected_steps + 1) :
    (adaptiveStep sqrtFn solveAt params st).h
      = stepH params st
        * max (min (sqrtFn (stepTolV solveAt params st
            / stepLte solveAt params st)) (1/2)) (1/10)
    ∧ (adaptiveStep sqrtFn solveAt params st).t = st.t
    ∧ (adaptiveStep sqrtFn solveAt params st).result.points
        = st.result.points
    ∧ (∀ (k : ℕ) (c : CapacitorState) (vi : ℚ × ℚ),
        st.caps[k]? = some c → st.savedCaps[k]? = some vi →
        (adaptiveStep sqrtFn solveAt params st).caps[k]?
          = some { c with v_prev := vi.1, i_prev := vi.2 })
    ∧ (∀ (k : ℕ) (l : InductorState) (iv : ℚ × ℚ),
        st.inds[k]? = some l → st.savedInds[k]? = some iv →
        (adaptiveStep sqrtFn solveAt params st).inds[k]?
          = some { l with i_prev := iv.1, v_prev := iv.2 }) := by
  have hbr : stepTolV solveAt params st < stepLte solveAt params st
      ∧ params.h_min < stepH params st := by
    by_contra hc
    unfold adaptiveStep at hreject
    rw [if_neg hc] at hreject
    simp only at hreject
    omega
  unfold adaptiveStep
  rw [if_pos hbr]
  refine ⟨rfl, rfl, rfl, ?_, ?_⟩
  · intro k c vi hc hvi
    simp only
    rw [List.getElem?_map, zip_getElem? st.caps st.savedCaps k c vi hc hvi]
    rfl
  · intro k l iv hl hiv
    simp only
    rw [List.getElem?_map, zip_getElem? st.inds st.savedInds k l iv hl hiv]
    rfl

/-- C3 witness: the reject behaviour applied at the concrete rejected
step. -/
theorem adaptive_reject_behaviour_witness :
    (adaptiveStep c3Sqrt caOracle c3Params c3State).result.rejected_steps
      = c3State.result.rejected_steps + 1
    ∧ (adaptiveStep c3Sqrt caOracle c3Params c3State).t = c3State.t
    ∧ (adaptiveStep c3Sqrt caOracle c3Params c3State).caps[0]?
      = some { caCap with v_prev := 0, i_prev := 0 } := by
  have hlte : stepLte caOracle c3Params c3State = 1/3 := by
    norm_num [stepLte, stepSol, stepH, stepMaxLte, caOracle, c3Params,
      c3State, caCap, CapacitorState.estimate_lte,
      CapacitorState.voltage_from_solution, voltageFromSolution]
  have htol : stepTolV caOracle c3Params c3State = 1/12 := by
    norm_num [stepTolV, stepSol, stepH, stepTol, stepMaxRef, caOracle,
      c3Params, c3State, caCap, CapacitorState.voltage_from_solution,
      voltageFromSolution]
  have hh : stepH c3Params c3State = 1 := by
    norm_num [stepH, c3Params, c3State]
  have hrej : (adaptiveStep c3Sqrt caOracle c3Params
      c3State).result.rejected_steps = c3State.result.rejected_steps + 1 := by
    unfold adaptiveStep
    rw [if_pos (by
      rw [hlte, htol, hh]
      norm_num [c3Params])]
  have hmain := adaptive_reject_behaviour c3Sqrt caOracle c3Params c3State
    hrej
  refine ⟨hrej, hmain.2.1, ?_⟩
  have := hmain.2.2.2.1 0 caCap (0, 0) (by simp [c3State]) (by simp [c3State])
  exact this

/-- C4: with `batch_size = 0` and correspondingly empty buffers, the CPU
backend and the triplet backend return an empty `BatchedSolveResult`
without error; the faer sparse-cached backend, however, with an empty
symbolic cache and `n = 1`, panics slicing `&matrices[0..n*n]` out of the
empty buffer instead of returning the empty result. -/
theorem batch_size_zero_behaviour {Sym : Type}
    (luSolve : List ℚ → List ℚ → Option (List ℚ))
    (trySymbolic : List (ℕ × ℕ × ℚ) → ℕ → Option Sym)
    (trySolve : Sym → List (ℕ × ℕ × ℚ) → List ℚ → ℕ → Option (List ℚ))
    (n : ℕ) :
    cpuSolveBatch luSolve [] [] n 0
      = .ok { solutions := [], singular_indices := [], n := n,
              batch_size := 0 }
    ∧ faerSolveBatchTriplets trySymbolic trySolve [] [] n
      = .ok { solutions := [], singular_indices := [], n := n,
              batch_size := 0 }
    ∧ faerSolveBatch trySymbolic trySolve (none, none) [] [] 1 0
      = .error .panic := by
  refine ⟨?_, ?_, ?_⟩
  · simp [cpuSolveBatch]
  · simp [faerSolveBatchTriplets]
  · simp [faerSolveBatch]

/-! ### Convergence tracker lemmas -/

theorem countP_set_inactive (l : List ConvergenceStatus) :
    ∀ (i : ℕ) (h : i < l.length), (l.get ⟨i, h⟩).isActive = true →
    ∀ v : ConvergenceStatus, v.isActive = false →
    (l.set i v).countP (fun s => s.isActive) + 1
      = l.countP (fun s => s.isActive) := by
  induction l with
  | nil => intro i h; simp at h
  | cons a as ih =>
    intro i h ha v hv
    cases i with
    | zero =>
      simp only [List.get] at ha
      simp [List.set, List.countP_cons, ha, hv]
    | succ j =>
      simp only [List.get] at ha
      have hrec := ih j (Nat.lt_of_succ_lt_succ h) ha v hv
      simp only [List.set, List.countP_cons]
      omega

theorem foldl_preserve {α : Type _} (P : ConvergenceTracker → Prop)
    (f : ConvergenceTracker → α → ConvergenceTracker)
    (hf : ∀ t a, P t → P (f t a)) :
    ∀ (l : List α) (t : ConvergenceTracker), P t → P (l.foldl f t) := by
  intro l
  induction l with
  | nil => intro t h; exact h
  | cons a as ih => intro t h; exact ih _ (hf t a h)

theorem mark_converged_inv (t : ConvergenceTracker) (i : ℕ)
    (h : activeCountInv t) : activeCountInv (t.mark_converged i) := by
  unfold ConvergenceTracker.mark_converged
  split
  next hlen =>
    split
    next hact =>
      unfold activeCountInv at h ⊢
      simp only
      have hc := countP_set_inactive t.status i hlen hact .converged rfl
      omega
    next => exact h
  next => exact h

theorem mark_failed_inv (t : ConvergenceTracker) (i : ℕ)
    (h : activeCountInv t) : activeCountInv (t.mark_failed i) := by
  unfold ConvergenceTracker.mark_failed
  split
  next hlen =>
    split
    next hact =>
      unfold activeCountInv at h ⊢
      simp only
      have hc := countP_set_inactive t.status i hlen hact .failed rfl
      omega
    next => exact h
  next => exact h

theorem mark_singular_inv (t : ConvergenceTracker) (i : ℕ)
    (h : activeCountInv t) : activeCountInv (t.mark_singular i) := by
  unfold ConvergenceTracker.mark_singular
  split
  next hlen =>
    split
    next hact =>
      unfold activeCountInv at h ⊢
      simp only
      have hc := countP_set_inactive t.status i hlen hact .singular rfl
      omega
    next => exact h
  next => exact h

theorem increment_iteration_inv (t : ConvergenceTracker) (i : ℕ)
    (h : activeCountInv t) : activeCountInv (t.increment_iteration i) := by
  unfold ConvergenceTracker.increment_iteration
  split
  next =>
    split
    next => exact mark_failed_inv _ _ h
    next => exact h
  next => exact h

theorem increment_all_active_inv (t : ConvergenceTracker)
    (h : activeCountInv t) : activeCountInv t.increment_all_active :=
  foldl_preserve activeCountInv _
    (fun t' a h' => by
      split
      · exact increment_iteration_inv t' a h'
      · exact h') _ t h

theorem check_convergence_inv (t : ConvergenceTracker)
    (solution_changes : List ℚ) (n : ℕ) (abstol reltol : ℚ)
    (solutions : List ℚ) (h : activeCountInv t) :
    activeCountInv
      (t.check_convergence solution_changes n abstol reltol solutions) := by
  unfold ConvergenceTracker.check_convergence
  split
  · exact foldl_preserve activeCountInv _
      (fun t' a h' => by
        split
        · split
          · exact mark_converged_inv t' a h'
          · exact h'
        · exact h') _ t h
  · exact h

theorem check_residual_convergence_inv (t : ConvergenceTracker)
    (residuals : List ℚ) (n : ℕ) (tolerance : ℚ) (h : activeCountInv t) :
    activeCountInv (t.check_residual_convergence residuals n tolerance) := by
  unfold ConvergenceTracker.check_residual_convergence
  split
  · exact foldl_preserve activeCountInv _
      (fun t' a h' => by
        split
        · split
          · exact mark_converged_inv t' a h'
          · exact h'
        · exact h') _ t h
  · exact h

theorem apply_inv (t : ConvergenceTracker) (op : TrackerOp)
    (h : activeCountInv t) : activeCountInv (op.apply t) := by
  cases op with
  | markConverged i => exact mark_converged_inv t i h
  | markFailed i => exact mark_failed_inv t i h
  | markSingular i => exact mark_singular_inv t i h
  | incrementIteration i => exact increment_iteration_inv t i h
  | incrementAllActive => exact increment_all_active_inv t h
  | checkConvergence ch n a r sol => exact check_convergence_inv t ch n a r sol h
  | checkResidualConvergence res n tol =>
      exact check_residual_convergence_inv t res n tol h

theorem applyOps_inv (t : ConvergenceTracker) (ops : List TrackerOp)
    (h : activeCountInv t) : activeCountInv (applyOps t ops) :=
  foldl_preserve activeCountInv TrackerOp.apply
    (fun t' op h' => apply_inv t' op h') ops t h

theorem mark_converged_frozen (t : ConvergenceTracker) (idx i : ℕ)
    (s : ConvergenceStatus) (hs : s.isActive = false)
    (h : t.status[i]? = some s) :
    (t.mark_converged idx).status[i]? = some s := by
  unfold ConvergenceTracker.mark_converged
  split
  next hlen =>
    split
    next hact =>
      simp only
      by_cases heq : idx = i
      · subst heq
        exfalso
        rw [List.getElem?_eq_getElem hlen] at h
        have hget : t.status[idx] = s := Option.some.inj h
        rw [List.get_eq_getElem, hget, hs] at hact
        exact Bool.false_ne_true hact
      · rw [List.getElem?_set_ne heq]
        exact h
    next => exact h
  next => exact h

theorem mark_failed_frozen (t : ConvergenceTracker) (idx i : ℕ)
    (s : ConvergenceStatus) (hs : s.isActive = false)
    (h : t.status[i]? = some s) :
    (t.mark_failed idx).status[i]? = some s := by
  unfold ConvergenceTracker.mark_failed
  split
  next hlen =>
    split
    next hact =>
      simp only
      by_cases heq : idx = i
      · subst heq
        exfalso
        rw [List.getElem?_eq_getElem hlen] at h
        have hget : t.status[idx] = s := Option.some.inj h
        rw [List.get_eq_getElem, hget, hs] at hact
        exact Bool.false_ne_true hact
      · rw [List.getElem?_set_ne heq]
        exact h
    next => exact h
  next => exact h

theorem mark_singular_frozen (t : ConvergenceTracker) (idx i : ℕ)
    (s : ConvergenceStatus) (hs : s.isActive = false)
    (h : t.status[i]? = some s) :
    (t.mark_singular idx).status[i]? = some s := by
  unfold ConvergenceTracker.mark_singular
  split
  next hlen =>
    split
    next hact =>
      simp only
      by_cases heq : idx = i
      · subst heq
        exfalso
        rw [List.getElem?_eq_getElem hlen] at h
        have hget : t.status[idx] = s := Option.some.inj h
        rw [List.get_eq_getElem, hget, hs] at hact
        exact Bool.false_ne_true hact
      · rw [List.getElem?_set_ne heq]
        exact h
    next => exact h
  next => exact h

theorem increment_iteration_frozen (t : ConvergenceTracker) (idx i : ℕ)
    (s : ConvergenceStatus) (hs : s.isActive = false)
    (h : t.status[i]? = some s) :
    (t.increment_iteration idx).status[i]? = some s := by
  unfold ConvergenceTracker.increment_iteration
  split
  next =>
    split
    next => exact mark_failed_frozen _ idx i s hs h
    next => exact h
  next => exact h

theorem increment_all_active_frozen (t : ConvergenceTracker) (i : ℕ)
    (s : ConvergenceStatus) (hs : s.isActive = false)
    (h : t.status[i]? = some s) :
    t.increment_all_active.status[i]? = some s :=
  foldl_preserve (fun t' => t'.status[i]? = some s) _
    (fun t' a h' => by
      split
      · exact increment_iteration_frozen t' a i s hs h'
      · exact h') _ t h

theorem check_convergence_frozen (t : ConvergenceTracker)
    (solution_changes : List ℚ) (n : ℕ) (abstol reltol : ℚ)
    (solutions : List ℚ) (i : ℕ) (s : ConvergenceStatus)
    (hs : s.isActive = false) (h : t.status[i]? = some s) :
    (t.check_convergence solution_changes n abstol reltol
      solutions).status[i]? = some s := by
  unfold ConvergenceTracker.check_convergence
  split
  · exact foldl_preserve (fun t' => t'.status[i]? = some s) _
      (fun t' a h' => by
        split
        · split
          · exact mark_converged_frozen t' a i s hs h'
          · exact h'
        · exact h') _ t h
  · exact h

theorem check_residual_convergence_frozen (t : ConvergenceTracker)
    (residuals : List ℚ) (n : ℕ) (tolerance : ℚ) (i : ℕ)
    (s : ConvergenceStatus) (hs : s.isActive = false)
    (h : t.status[i]? = some s) :
    (t.check_residual_convergence residuals n tolerance).status[i]?
      = some s := by
  unfold ConvergenceTracker.check_residual_convergence
  split
  · exact foldl_preserve (fun t' => t'.status[i]? = some s) _
      (fun t' a h' => by
        split
        · split
          · exact mark_converged_frozen t' a i s hs h'
          · exact h'
        · exact h') _ t h
  · exact h

theorem apply_frozen (t : ConvergenceTracker) (op : TrackerOp) (i : ℕ)
    (s : ConvergenceStatus) (hs : s.isActive = false)
    (h : t.status[i]? = some s) : (op.apply t).status[i]? = some s := by
  cases op with
  | markConverged idx => exact mark_converged_frozen t idx i s hs h
  | markFailed idx => exact mark_failed_frozen t idx i s hs h
  | markSingular idx => exact mark_singular_frozen t idx i s hs h
  | incrementIteration idx => exact increment_iteration_frozen t idx i s hs h
  | incrementAllActive => exact increment_all_active_frozen t i s hs h
  | checkConvergence ch n a r sol =>
      exact check_convergence_frozen t ch n a r sol i s hs h
  | checkResidualConvergence res n tol =>
      exact check_residual_convergence_frozen t res n tol i s hs h

theorem applyOps_frozen (t : ConvergenceTracker) (ops : List TrackerOp)
    (i : ℕ) (s : ConvergenceStatus) (hs : s.isActive = false)
    (h : t.status[i]? = some s) : (applyOps t ops).status[i]? = some s :=
  foldl_preserve (fun t' => t'.status[i]? = some s) TrackerOp.apply
    (fun t' op h' => apply_frozen t' op i s hs h') ops t h

theorem countP_replicate_active (n : ℕ) :
    (List.replicate n ConvergenceStatus.active).countP
      (fun s => s.isActive) = n := by
  induction n with
  | zero => rfl
  | succ k ih =>
    rw [List.replicate_succ, List.countP_cons, ih]
    rfl

/-- C8: for every sequence of tracker operations (`mark_converged`,
`mark_failed`, `mark_singular`, `increment_iteration`,
`increment_all_active`, `check_convergence`, `check_residual_convergence`)
applied to a freshly created tracker, `active_count` equals the number of
`Active` entries, and once an entry's status has left `Active` (to
`Converged`, `Failed` or `Singular`) no further operations change it. -/
theorem tracker_invariants (batch_size max_iter : ℕ)
    (ops more : List TrackerOp) (i : ℕ) (s : ConvergenceStatus) :
    (applyOps (ConvergenceTracker.withMaxIterations batch_size max_iter)
        ops).active_count
      = (applyOps (ConvergenceTracker.withMaxIterations batch_size max_iter)
          ops).status.countP (fun st => st.isActive)
    ∧ ((applyOps (ConvergenceTracker.withMaxIterations batch_size max_iter)
          ops).status[i]? = some s → s.isActive = false →
        (applyOps (ConvergenceTracker.withMaxIterations batch_size max_iter)
          (ops ++ more)).status[i]? = some s) := by
  constructor
  · have hbase :
        activeCountInv (ConvergenceTracker.withMaxIterations batch_size
          max_iter) := by
      unfold activeCountInv ConvergenceTracker.withMaxIterations
      simp only
      exact (countP_replicate_active batch_size).symm
    exact applyOps_inv _ ops hbase
  · intro h hs
    have happ : applyOps (ConvergenceTracker.withMaxIterations batch_size
          max_iter) (ops ++ more)
        = applyOps (applyOps (ConvergenceTracker.withMaxIterations
            batch_size max_iter) ops) more := by
      unfold applyOps
      exact List.foldl_append _ _ _ _
    rw [happ]
    exact applyOps_frozen _ more i s hs h

/-- C8 witness: a two-point tracker where point 0 is marked converged; the
count matches and a later `mark_failed 0` cannot change the status. -/
theorem tracker_invariants_witness :
    (applyOps (ConvergenceTracker.withMaxIterations 2 3)
        [.markConverged 0]).status[0]? = some ConvergenceStatus.converged
    ∧ ConvergenceStatus.converged.isActive = false
    ∧ (applyOps (ConvergenceTracker.withMaxIterations 2 3)
        ([.markConverged 0] ++ [.markFailed 0])).status[0]?
      = some ConvergenceStatus.converged :=
  ⟨by decide, by decide,
    (tracker_invariants 2 3 [.markConverged 0] [.markFailed 0] 0
      .converged).2 (by decide) (by decide)⟩

end Spicier
